import Mathlib

/-!
Verification development for the dqd-spider extraction pipeline.

The Python sources are shallowly embedded as executable Lean definitions:
Python dictionaries become insertion-ordered association lists, Python values
become the inductive type `PyData`, and the character-scanning extraction
routines become structural recursions over `List Char`.  Each embedded
definition cites the source function it translates.
-/

set_option maxRecDepth 10000

/-- Values stored in the Python dictionaries manipulated by the scraper:
strings, integers, booleans, `None`, lists and nested dictionaries. -/
inductive PyData where
  | pstr (s : String)
  | pint (n : Int)
  | pbool (b : Bool)
  | pnone
  | plist (xs : List PyData)
  | pdict (fs : List (String × PyData))
deriving Repr

/-- Python dictionaries with `PyData` values, as insertion-ordered
association lists (CPython dictionaries preserve insertion order). -/
abbrev Dict := List (String × PyData)

/-- Dictionary lookup, `d[k]` / `k in d`: the first binding of `k`. -/
def dictGet {α : Type} (d : List (String × α)) (k : String) : Option α :=
  (d.find? (fun p => p.1 = k)).map Prod.snd

/-- Python `d.get(k, v)`: the binding of `k`, or the default `v` when the
key is absent (the default is not used when the key maps to `None`). -/
def dictGetD {α : Type} (d : List (String × α)) (k : String) (v : α) : α :=
  (dictGet d k).getD v

/-- Python `d[k] = v`: overwrite the binding in place when the key exists,
otherwise append the new binding at the end. -/
def dictSet {α : Type} (d : List (String × α)) (k : String) (v : α) :
    List (String × α) :=
  match d with
  | [] => [(k, v)]
  | (k', v') :: rest => if k' = k then (k, v) :: rest else (k', v') :: dictSet rest k v

/-- Keys of a dictionary, in order. -/
def dictKeys {α : Type} (d : List (String × α)) : List String :=
  d.map Prod.fst

/-! ## Delimiter scanner

`TeamMemberScraper._extract_balanced_braces` (src/team_members_scraper.py,
lines 908-935) scans forward from `start_pos`, incrementing a counter at
every `{` and decrementing it at every `}` — with no tracking of quoted
strings — and returns `text[start_pos:i+1]` at the first `}` that brings
the counter to zero, or `None` when the counter never returns to zero. -/

/-- Loop body of `_extract_balanced_braces`: `cs` is `text` from
`start_pos` on, `k` is the running `brace_count`.  Returns the scanned
span (a prefix of `cs`) when the count reaches zero at a `}`. -/
def scanBraces : List Char → Int → Option (List Char)
  | [], _ => none
  | c :: rest, k =>
    if c = '{' then (scanBraces rest (k + 1)).map (fun l => c :: l)
    else if c = '}' then
      if k - 1 = 0 then some [c]
      else (scanBraces rest (k - 1)).map (fun l => c :: l)
    else (scanBraces rest k).map (fun l => c :: l)

/-- `TeamMemberScraper._extract_balanced_braces(text, start_pos)`. -/
def extractBalancedBraces (text : String) (startPos : Nat) : Option String :=
  (scanBraces (text.toList.drop startPos) 0).map (fun l => String.mk l)

/-- `TeamDetailSpider._extract_balanced_braces_simple(text, start_pos)`
(src/src/team_detail_spider.py, lines 263-286): identical scan, but first
checks that `start_pos` is in range and points at a `{`. -/
def extractBalancedBracesSimple (text : String) (startPos : Nat) : Option String :=
  match text.toList.drop startPos with
  | '{' :: _ => extractBalancedBraces text startPos
  | _ => none

/-- Net brace balance of a span: occurrences of `{` minus occurrences
of `}`, counting braces inside quoted strings like any other character. -/
def netBraces (l : List Char) : Int :=
  (l.count '{' : Int) - (l.count '}' : Int)

/-! ## Roster persistence

`TeamMemberScraper.update_team_members_to_db` (src/team_members_scraper.py,
lines 1386-1430) projects every member dictionary onto nine fields with
empty-string defaults and writes the whole projected list into the team
document's `person` field.  No member is filtered out on any condition. -/

/-- Projection of one member dictionary performed inside the
`for member in members_data` loop of `update_team_members_to_db`. -/
def mkPersonInfo (m : Dict) : Dict :=
  [("position", dictGetD m "position" (.pstr "")),
   ("jersey_number", dictGetD m "jersey_number" (.pstr "")),
   ("name", dictGetD m "name" (.pstr "")),
   ("appearances", dictGetD m "appearances" (.pstr "")),
   ("goals", dictGetD m "goals" (.pstr "")),
   ("nationality_flag", dictGetD m "nationality_flag" (.pstr "")),
   ("person_id", dictGetD m "person_id" (.pstr "")),
   ("detailed_type", dictGetD m "detailed_type" (.pstr "")),
   ("avatar_url", dictGetD m "avatar_url" (.pstr ""))]

/-- The `person_data` list assembled by `update_team_members_to_db`. -/
def personDataOf (members : List Dict) : List Dict :=
  members.map mkPersonInfo

/-- The `update_data` dictionary written to the store by
`update_team_members_to_db` (`person_updated_at` is the current time,
passed here as `now`). -/
def updateTeamMembersData (members : List Dict) (now : PyData) : Dict :=
  [("person", .plist ((personDataOf members).map .pdict)),
   ("person_updated_at", now),
   ("total_members", .pint (members.length : Int))]

/-! ## Structural equality on PyData

MongoDB's `find_one` filter in `TeamDatabaseManager.find_team_by_name_and_id`
compares stored field values with the queried values; `pyEqb` is that
structural value equality. -/

mutual

/-- Structural equality test on `PyData` values. -/
def pyEqb : PyData → PyData → Bool
  | .pstr a, .pstr b => a == b
  | .pint a, .pint b => a == b
  | .pbool a, .pbool b => a == b
  | .pnone, .pnone => true
  | .plist a, .plist b => pyEqbList a b
  | .pdict a, .pdict b => pyEqbDict a b
  | _, _ => false

/-- Structural equality test on lists of `PyData` values. -/
def pyEqbList : List PyData → List PyData → Bool
  | [], [] => true
  | a :: as', b :: bs' => pyEqb a b && pyEqbList as' bs'
  | _, _ => false

/-- Structural equality test on `PyData` dictionaries. -/
def pyEqbDict : List (String × PyData) → List (String × PyData) → Bool
  | [], [] => true
  | (ka, va) :: as', (kb, vb) :: bs' => ka == kb && pyEqb va vb && pyEqbDict as' bs'
  | _, _ => false

end

/-! ## Cross-source reconciler: name matching and schema enrichment

`TeamMemberScraper._match_member_with_schema` (src/team_members_scraper.py,
lines 1147-1175) and the enrichment loop of `scrape_team_members`
(lines 121-147). -/

/-- Whitespace characters recognised by Python's `str.strip()` and by the
regex class `\s` (restricted to the ASCII range, which covers all the
inputs this pipeline handles). -/
def isPyWs (c : Char) : Bool :=
  c = ' ' || c = '\t' || c = '\n' || c = '\r' || c = '\x0b' || c = '\x0c'

/-- Python `str.strip()`. -/
def pyStrip (s : String) : String :=
  String.mk (((s.toList.dropWhile isPyWs).reverse.dropWhile isPyWs).reverse)

/-- Python `str.lower()` (ASCII letters; other characters unchanged). -/
def pyLower (s : String) : String :=
  String.mk (s.toList.map Char.toLower)

/-- The name normalisation `re.sub(r'[\s\-\.]', '', name.lower())` used by
the partial-match pass of `_match_member_with_schema`. -/
def normalizeName (s : String) : String :=
  String.mk ((pyLower s).toList.filter (fun c => !(isPyWs c || c = '-' || c = '.')))

/-- Python `member.get('name', '')` where the value is a string (the
scraper only ever stores extracted text under `name`). -/
def memberName (m : Dict) : String :=
  match dictGet m "name" with
  | some (.pstr s) => s
  | _ => ""

/-- `TeamMemberScraper._match_member_with_schema(member_data, schema_data)`:
first a pass looking for an exactly equal stripped name, then a pass on
names lowercased and stripped of whitespace, hyphens and periods. -/
def matchMemberWithSchema (m : Dict) (schema : List Dict) : Option Dict :=
  let mn := pyStrip (memberName m)
  if mn = "" then none
  else
    match schema.find? (fun sm => pyStrip (memberName sm) = mn) with
    | some sm => some sm
    | none =>
        schema.find?
          (fun sm => normalizeName (pyStrip (memberName sm)) = normalizeName mn)

/-- Field assignment shared by all branches of the enrichment loop of
`scrape_team_members`: set `person_id` and `detailed_type` on the member. -/
def setEnrichment (m : Dict) (pid dt : PyData) : Dict :=
  dictSet (dictSet m "person_id" pid) "detailed_type" dt

/-- One iteration of the enrichment loop in `scrape_team_members`
(lines 126-145): name match first, then index fallback, then empty
strings.  `i` is the member's position in the DOM list. -/
def enrichOne (i : Nat) (m : Dict) (schema : List Dict) : Dict :=
  match matchMemberWithSchema m schema with
  | some s =>
      setEnrichment m (dictGetD s "person_id" (.pstr "")) (dictGetD s "detailed_type" (.pstr ""))
  | none =>
      if h : i < schema.length then
        let s := schema.get ⟨i, h⟩
        setEnrichment m (dictGetD s "person_id" (.pstr "")) (dictGetD s "detailed_type" (.pstr ""))
      else
        setEnrichment m (.pstr "") (.pstr "")

/-- The whole enrichment loop of `scrape_team_members` (lines 121-147),
applied to the already-extracted DOM member dictionaries.  When
`schema_data` is falsy (absent or empty) every member just receives empty
`person_id` and `detailed_type`. -/
def matchAndEnrich (members : List Dict) (schema : List Dict) : List Dict :=
  match schema with
  | [] => members.map (fun m => setEnrichment m (.pstr "") (.pstr ""))
  | _ :: _ => members.enum.map (fun p => enrichOne p.1 p.2 schema)

/-! ## Cross-source reconciler: index merge with decompressed data

`TeamMemberScraper.merge_with_decompressed_data` (src/team_members_scraper.py,
lines 1328-1384); `ACMilanTeamScraper.merge_with_decompressed_data`
(src/ac_milan_team_scraper.py, lines 275-331) is line-for-line the same
merge. -/

/-- The member-merging loop (lines 1357-1377): each scraped member is
copied and given `person_id` / `detailed_type` from the decompressed entry
at the same index, or `None` for both when the index is out of range. -/
def mergeMembersCore (scraped : List Dict) (decompressed : List Dict) : List Dict :=
  scraped.enum.map (fun p =>
    if h : p.1 < decompressed.length then
      let d := decompressed.get ⟨p.1, h⟩
      setEnrichment p.2 (dictGetD d "person_id" (.pstr "")) (dictGetD d "type" (.pstr ""))
    else
      setEnrichment p.2 .pnone .pnone)

/-- Python `data.get('members', [])` restricted to dictionary elements
(the scraper only ever stores member dictionaries in that list). -/
def getMembers (d : Dict) : List Dict :=
  match dictGet d "members" with
  | some (.plist xs) =>
      xs.filterMap (fun x => match x with | .pdict fs => some fs | _ => none)
  | _ => []

/-- `merge_with_decompressed_data` after the decompressed file has been
loaded: `decompressedOpt` is `none` when loading failed, and a falsy
(empty) loaded dictionary also returns the scraped data unchanged.
`mergeTime` stands for `datetime.now().isoformat()`. -/
def mergeWithDecompressedData (scrapedData : Dict) (decompressedOpt : Option Dict)
    (mergeTime : String) : Dict :=
  match decompressedOpt with
  | none => scrapedData
  | some [] => scrapedData
  | some dd =>
      let md := dictSet (dictSet scrapedData "merge_time" (.pstr mergeTime))
        "has_enhanced_data" (.pbool true)
      let merged := mergeMembersCore (getMembers scrapedData) (getMembers dd)
      dictSet md "members" (.plist (merged.map .pdict))

/-! ## Team store: natural-key upsert

`TeamDatabaseManager` (src/src/team_database.py).  The MongoDB collection
is modelled as a list of documents in insertion order; `find_one` returns
the first matching document and `update_one` with `$set` rewrites the
first matching document. -/

/-- Store of team documents. -/
abbrev Store := List Dict

/-- The filter used by `find_team_by_name_and_id` / `update_team_by_name_and_id`:
the document's `team_name` and `team_id` fields both exist and equal the
queried values. -/
def matchesKey (d : Dict) (n i : PyData) : Bool :=
  (match dictGet d "team_name" with | some v => pyEqb v n | none => false) &&
  (match dictGet d "team_id" with | some v => pyEqb v i | none => false)

/-- `TeamDatabaseManager.find_team_by_name_and_id(team_name, team_id)`
(lines 230-249): `find_one` on the two-field filter. -/
def findTeamByNameAndId (s : Store) (n i : PyData) : Option Dict :=
  s.find? (fun d => matchesKey d n i)

/-- `update_one` semantics: rewrite the first document satisfying the
filter with `f`, leaving every other document unchanged. -/
def updateFirst (s : Store) (p : Dict → Bool) (f : Dict → Dict) : Store :=
  match s with
  | [] => []
  | d :: rest => if p d then f d :: rest else d :: updateFirst rest p f

/-- MongoDB `$set` with an update dictionary: each binding of `upd` is
written into the document in order. -/
def applySet (d : Dict) (upd : Dict) : Dict :=
  upd.foldl (fun acc kv => dictSet acc kv.1 kv.2) d

/-- `TeamDatabaseManager.update_team_by_name_and_id(team_name, team_id,
update_data)` (lines 251-285): stamps `updated_at` into the update
dictionary, then `$set`s it on the first matching document. -/
def updateTeamByNameAndId (s : Store) (n i : PyData) (upd : Dict) (now : PyData) : Store :=
  updateFirst s (fun d => matchesKey d n i) (fun d => applySet d (dictSet upd "updated_at" now))

/-- The required-field validation at the top of `insert_team`. -/
def requiredFieldsOk (d : Dict) : Bool :=
  ["team_id", "team_name", "team_logo", "scheme"].all (fun k => (dictGet d k).isSome)

/-- `TeamDatabaseManager.insert_team(team_data)` (lines 113-160), effect
on the stored collection: reject documents missing a required field;
update the existing document when the `(team_name, team_id)` pair is
already present; otherwise stamp `created_at` / `updated_at` and append.
`now` stands for `datetime.now()`. -/
def insertTeam (s : Store) (d : Dict) (now : PyData) : Store :=
  if requiredFieldsOk d then
    let n := dictGetD d "team_name" .pnone
    let i := dictGetD d "team_id" .pnone
    match findTeamByNameAndId s n i with
    | some _ => updateTeamByNameAndId s n i d now
    | none => s ++ [dictSet (dictSet d "created_at" now) "updated_at" now]
  else s

/-! ## Field matcher fallback: bounded recursive structural search

`TeamMemberScraper._recursive_search_members` (src/team_members_scraper.py,
lines 1081-1121) and `TeamMemberScraper._is_members_list` (lines 1123-1145). -/

/-- Python `str(x)` for the scalar values this pipeline stores (container
reprs are never needed by the theorems below). -/
def pyStr : PyData → String
  | .pstr s => s
  | .pint n => toString n
  | .pbool b => if b then "True" else "False"
  | .pnone => "None"
  | .plist _ => "<list>"
  | .pdict _ => "<dict>"

/-- The diagnostic field names checked by `_is_members_list`. -/
def personFields : List String :=
  ["id", "person_id", "name", "type", "position", "role"]

/-- Does one sampled element look like a person record: it is a
dictionary containing at least one diagnostic field name. -/
def hasPersonField (x : PyData) : Bool :=
  match x with
  | .pdict fs => personFields.any (fun f => (dictGet fs f).isSome)
  | _ => false

/-- `TeamMemberScraper._is_members_list(data_list)`: true as soon as ANY
of the first `min(3, len)` elements contains a diagnostic field. -/
def isMembersList (xs : List PyData) : Bool :=
  match xs with
  | [] => false
  | _ :: _ => (xs.take 3).any hasPersonField

/-- The `member_info` record built for each dictionary element of an
accepted members list inside `_recursive_search_members`. -/
def mkMemberInfo (fs : List (String × PyData)) : Dict :=
  [("person_id", .pstr (pyStr (dictGetD fs "id" (dictGetD fs "person_id" (.pstr ""))))),
   ("detailed_type", dictGetD fs "type" (dictGetD fs "position" (dictGetD fs "role" (.pstr "")))),
   ("name", dictGetD fs "name" (dictGetD fs "fullName" (dictGetD fs "displayName" (.pstr ""))))]

/-- Extraction of all dictionary elements of an accepted members list. -/
def extractMembersFromList (xs : List PyData) : List Dict :=
  xs.filterMap (fun x => match x with | .pdict fs => some (mkMemberInfo fs) | _ => none)

mutual

/-- `TeamMemberScraper._recursive_search_members(data, depth)`: empty
above depth 5; on dictionaries, walk the values in order, returning the
accumulated results as soon as a non-empty list value passes
`_is_members_list` (a list value failing that test is skipped, not
recursed into); on lists, search each element at depth + 1. -/
def recursiveSearchMembers (data : PyData) (depth : Nat) : List Dict :=
  if depth > 5 then []
  else
    match data with
    | .pdict fs => searchDictEntries fs depth []
    | .plist xs => searchListEntries xs depth []
    | _ => []

/-- The `for key, value in data.items()` loop of
`_recursive_search_members`, with `acc` the `members_data` accumulated so
far (the `return members_data` inside the loop is the early exit). -/
def searchDictEntries (fs : List (String × PyData)) (depth : Nat) (acc : List Dict) :
    List Dict :=
  match fs with
  | [] => acc
  | (_, v) :: rest =>
      match v with
      | .plist (x :: xs) =>
          if isMembersList (x :: xs) then acc ++ extractMembersFromList (x :: xs)
          else searchDictEntries rest depth acc
      | _ => searchDictEntries rest depth (acc ++ recursiveSearchMembers v (depth + 1))

/-- The `for item in data` loop of `_recursive_search_members` for list
input. -/
def searchListEntries (xs : List PyData) (depth : Nat) (acc : List Dict) : List Dict :=
  match xs with
  | [] => acc
  | x :: rest => searchListEntries rest depth (acc ++ recursiveSearchMembers x (depth + 1))

end

/-! ## Variable alias resolver

`TeamMemberScraper._extract_variable_mapping(js_content)`
(src/team_members_scraper.py, lines 581-692). -/

/-- Does `needle` occur at the head of `hay`. -/
def startsWithL : List Char → List Char → Bool
  | [], _ => true
  | _ :: _, [] => false
  | a :: as', b :: bs' => a = b && startsWithL as' bs'

/-- Python `hay.find(needle)`: index of the leftmost occurrence
(`none` models the -1 result). -/
def findSubPos (needle : List Char) : List Char → Option Nat
  | [] => if needle.isEmpty then some 0 else none
  | c :: rest =>
      if startsWithL needle (c :: rest) then some 0
      else (findSubPos needle rest).map (· + 1)

/-- Python `text.find(ch, start)`: index of the first occurrence of the
character `ch` at or after position `start`. -/
def findCharFrom (cs : List Char) (ch : Char) (start : Nat) : Option Nat :=
  ((cs.drop start).findIdx? (fun c => c = ch)).map (· + start)

/-- Python `str.split(sep)` for a single-character separator. -/
def splitChar (sep : Char) : List Char → List (List Char)
  | [] => [[]]
  | c :: rest =>
      match splitChar sep rest with
      | [] => [[]]
      | g :: gs => if c = sep then [] :: g :: gs else (c :: g) :: gs

/-- Attempt of the regex `\}\)\(([^)]+)\)` at the current position:
literal `})(`, then one or more non-`)` characters (the captured
argument text), then `)`.  Returns the capture and the remainder after
the match. -/
def matchCallAt (cs : List Char) : Option (List Char × List Char) :=
  match cs with
  | '}' :: ')' :: '(' :: rest =>
      let grp := rest.takeWhile (fun c => c ≠ ')')
      match grp, rest.drop grp.length with
      | _ :: _, ')' :: after => some (grp, after)
      | _, _ => none
  | _ => none

/-- `re.search(r'\}\)\(([^)]+)\)$', js_content)`: leftmost position where
the call pattern matches AND the match ends at the end of the string. -/
def searchCallAtEnd : List Char → Option (List Char)
  | [] => none
  | c :: rest =>
      match matchCallAt (c :: rest) with
      | some (grp, []) => some grp
      | _ => searchCallAtEnd rest

/-- `re.search(r'\}\)\(([^)]+)\)', js_content)`: leftmost match anywhere. -/
def searchCallAnywhere : List Char → Option (List Char)
  | [] => none
  | c :: rest =>
      match matchCallAt (c :: rest) with
      | some (grp, _) => some grp
      | none => searchCallAnywhere rest

/-- The `call_patterns` loop of `_extract_variable_mapping`
(lines 605-614): the end-anchored pattern first, then the unanchored one. -/
def findCallArgs (cs : List Char) : Option (List Char) :=
  match searchCallAtEnd cs with
  | some grp => some grp
  | none => searchCallAnywhere cs

/-- The character-by-character argument splitter of
`_extract_variable_mapping` (lines 619-659): backslash escapes, single- or
double-quoted strings and parenthesis depth all protect commas from
splitting; each emitted argument is stripped, and the final fragment is
kept only when non-empty after stripping. -/
def splitArgsLoop (cs : List Char) (inQ : Bool) (qc : Option Char) (esc : Bool)
    (pc : Int) (cur : List Char) (acc : List String) : List String :=
  match cs with
  | [] =>
      let last := pyStrip (String.mk cur.reverse)
      if last = "" then acc else acc ++ [last]
  | c :: rest =>
      if esc then splitArgsLoop rest inQ qc false pc (c :: cur) acc
      else if c = '\\' then splitArgsLoop rest inQ qc true pc (c :: cur) acc
      else if inQ then
        if some c = qc then splitArgsLoop rest false qc false pc (c :: cur) acc
        else splitArgsLoop rest true qc false pc (c :: cur) acc
      else if c = '"' || c = '\'' then splitArgsLoop rest true (some c) false pc (c :: cur) acc
      else if c = '(' then splitArgsLoop rest false qc false (pc + 1) (c :: cur) acc
      else if c = ')' then splitArgsLoop rest false qc false (pc - 1) (c :: cur) acc
      else if c = ',' && pc = 0 then
        splitArgsLoop rest false qc false pc [] (acc ++ [pyStrip (String.mk cur.reverse)])
      else splitArgsLoop rest false qc false pc (c :: cur) acc

/-- Argument splitting of the captured invocation text. -/
def parseCallArgs (argsStr : List Char) : List String :=
  splitArgsLoop argsStr false none false 0 [] []

/-- Quote removal applied to each argument value (lines 666-669):
strip one leading and trailing double quote, or one leading and trailing
single quote. -/
def stripQuotes (s : String) : String :=
  let cs := s.toList
  if startsWithL ['"'] cs && cs.getLast? = some '"' then
    String.mk (cs.drop 1).dropLast
  else if startsWithL ['\''] cs && cs.getLast? = some '\'' then
    String.mk (cs.drop 1).dropLast
  else s

/-- Python `str.replace(needle, repl)` with a non-empty needle
(`n :: ns`): left-to-right, non-overlapping.  Fuel-bounded structural
recursion; every step consumes at least one character, so fuel
`length + 1` is exact. -/
def replaceAllSub (n : Char) (ns : List Char) (repl : List Char) :
    Nat → List Char → List Char
  | 0, cs => cs
  | _, [] => []
  | fuel + 1, c :: rest =>
      if startsWithL (n :: ns) (c :: rest) then
        repl ++ replaceAllSub n ns repl fuel (rest.drop ns.length)
      else c :: replaceAllSub n ns repl fuel rest

/-- The escape processing of line 672: replace the six-character sequence
backslash-`u002F` by `/`, then backslash-quote by `"`, then
backslash-backslash by a single backslash.  No other `\uXXXX` or `\xXX`
escape is rewritten. -/
def processArgEscapes (s : String) : String :=
  let l0 := s.toList
  let s1 := replaceAllSub '\\' ['u', '0', '0', '2', 'F'] ['/'] (l0.length + 1) l0
  let s2 := replaceAllSub '\\' ['"'] ['"'] (s1.length + 1) s1
  let s3 := replaceAllSub '\\' ['\\'] ['\\'] (s2.length + 1) s2
  String.mk s3

/-- Full processing of one argument value (lines 664-672). -/
def processArgValue (s : String) : String :=
  processArgEscapes (stripQuotes s)

/-- The positional pairing loop of lines 662-673: parameter `i` receives
the processed argument `i`; parameters beyond the argument count receive
nothing. -/
def buildMapping (params : List String) (args : List String) : List (String × String) :=
  params.enum.foldl
    (fun acc p =>
      match args.get? p.1 with
      | some a => dictSet acc p.2 (processArgValue a)
      | none => acc)
    []

/-- The heuristic value list of lines 678-682. -/
def commonValues : List String :=
  ["主教练", "助理教练", "守门员教练", "体能教练", "战术教练",
   "西班牙", "阿根廷", "英格兰", "法国", "德国", "意大利", "巴西",
   "前锋", "中场", "后卫", "守门员"]

/-- The heuristic fallback of lines 676-687: pair the first parameters
with `commonValues` positionally. -/
def heuristicMapping (params : List String) : List (String × String) :=
  params.enum.foldl
    (fun acc p =>
      match commonValues.get? p.1 with
      | some v => dictSet acc p.2 v
      | none => acc)
    []

/-- The `window.__NUXT__=(function(` marker searched for at line 589. -/
def nuxtMarker : List Char :=
  "window.__NUXT__=(function(".toList

/-- `TeamMemberScraper._extract_variable_mapping(js_content)`
(lines 581-692). -/
def extractVariableMapping (js : String) : List (String × String) :=
  let cs := js.toList
  match findSubPos nuxtMarker cs with
  | none => []
  | some fs =>
      let paramsStart := fs + nuxtMarker.length
      match findCharFrom cs ')' paramsStart with
      | none => []
      | some paramsEnd =>
          let paramsStr := (cs.drop paramsStart).take (paramsEnd - paramsStart)
          let paramNames :=
            ((splitChar ',' paramsStr).map (fun g => pyStrip (String.mk g))).filter
              (fun s => s ≠ "")
          let mapping :=
            match findCallArgs cs with
            | some argsStr => buildMapping paramNames (parseCallArgs argsStr)
            | none => []
          match mapping with
          | [] => heuristicMapping paramNames
          | _ :: _ => mapping

/-! ## JS-to-data normalizer

`TeamMemberScraper._parse_js_object` (src/team_members_scraper.py, lines
937-1003) and `parse_js_object_to_json` (src/convert_raw_content.py,
lines 30-84).  `json.loads` is modelled by a recursive-descent parser for
the JSON grammar (numbers restricted to integers, which covers every
input considered below). -/

/-- Parsed JSON documents. -/
inductive Json where
  | jnull
  | jbool (b : Bool)
  | jnum (n : Int)
  | jstr (s : String)
  | jarr (xs : List Json)
  | jobj (fs : List (String × Json))
deriving Repr

/-- Whitespace skipped by `json.loads` between tokens. -/
def skipJsonWs (cs : List Char) : List Char :=
  cs.dropWhile (fun c => c = ' ' || c = '\t' || c = '\n' || c = '\r')

/-- Value of one hexadecimal digit. -/
def hexVal? (c : Char) : Option Nat :=
  if '0' ≤ c && c ≤ '9' then some (c.toNat - 48)
  else if 'a' ≤ c && c ≤ 'f' then some (c.toNat - 87)
  else if 'A' ≤ c && c ≤ 'F' then some (c.toNat - 55)
  else none

/-- Body of a JSON string after the opening quote: strict `json.loads`
escape handling, rejecting unescaped control characters and unknown
escapes.  Returns the decoded characters and the remainder after the
closing quote. -/
def parseStringBody : List Char → Option (List Char × List Char)
  | [] => none
  | '"' :: rest => some ([], rest)
  | '\\' :: e :: rest =>
      if e = '"' then (parseStringBody rest).map (fun p => ('"' :: p.1, p.2))
      else if e = '\\' then (parseStringBody rest).map (fun p => ('\\' :: p.1, p.2))
      else if e = '/' then (parseStringBody rest).map (fun p => ('/' :: p.1, p.2))
      else if e = 'b' then (parseStringBody rest).map (fun p => ('\x08' :: p.1, p.2))
      else if e = 'f' then (parseStringBody rest).map (fun p => ('\x0c' :: p.1, p.2))
      else if e = 'n' then (parseStringBody rest).map (fun p => ('\n' :: p.1, p.2))
      else if e = 'r' then (parseStringBody rest).map (fun p => ('\r' :: p.1, p.2))
      else if e = 't' then (parseStringBody rest).map (fun p => ('\t' :: p.1, p.2))
      else if e = 'u' then
        match rest with
        | a :: b :: c :: d :: rest' =>
            match hexVal? a, hexVal? b, hexVal? c, hexVal? d with
            | some ha, some hb, some hc, some hd =>
                let code := ((ha * 16 + hb) * 16 + hc) * 16 + hd
                if _h : code.isValidChar then
                  (parseStringBody rest').map (fun p => (Char.ofNat code :: p.1, p.2))
                else none
            | _, _, _, _ => none
        | _ => none
      else none
  | c :: rest =>
      if c.toNat < 32 then none
      else (parseStringBody rest).map (fun p => (c :: p.1, p.2))

/-- JSON integer literal: optional minus sign, digits with no redundant
leading zero; fractional and exponent forms are outside this model. -/
def parseJsonInt (cs : List Char) : Option (Int × List Char) :=
  let negAndRest : Bool × List Char :=
    match cs with
    | '-' :: r => (true, r)
    | _ => (false, cs)
  let ds := negAndRest.2.takeWhile Char.isDigit
  let rest := negAndRest.2.drop ds.length
  match ds with
  | [] => none
  | d0 :: drest =>
      if d0 = '0' && drest ≠ [] then none
      else
        match rest with
        | c :: _ =>
            if c = '.' || c = 'e' || c = 'E' then none
            else
              let v : Int := Int.ofNat (ds.foldl (fun a c => a * 10 + (c.toNat - 48)) 0)
              some (if negAndRest.1 then -v else v, rest)
        | [] =>
            let v : Int := Int.ofNat (ds.foldl (fun a c => a * 10 + (c.toNat - 48)) 0)
            some (if negAndRest.1 then -v else v, rest)

mutual

/-- One JSON value, fuel-bounded recursive descent. -/
def parseJsonValue : Nat → List Char → Option (Json × List Char)
  | 0, _ => none
  | fuel + 1, cs =>
      match skipJsonWs cs with
      | [] => none
      | '"' :: rest => (parseStringBody rest).map (fun p => (.jstr (String.mk p.1), p.2))
      | '{' :: rest =>
          (match skipJsonWs rest with
           | '}' :: rest2 => some (.jobj [], rest2)
           | _ => (parseJsonMembers fuel rest).map (fun p => (.jobj p.1, p.2)))
      | '[' :: rest =>
          (match skipJsonWs rest with
           | ']' :: rest2 => some (.jarr [], rest2)
           | _ => (parseJsonElems fuel rest).map (fun p => (.jarr p.1, p.2)))
      | c :: rest =>
          if startsWithL "true".toList (c :: rest) then
            some (.jbool true, (c :: rest).drop 4)
          else if startsWithL "false".toList (c :: rest) then
            some (.jbool false, (c :: rest).drop 5)
          else if startsWithL "null".toList (c :: rest) then
            some (.jnull, (c :: rest).drop 4)
          else (parseJsonInt (c :: rest)).map (fun p => (.jnum p.1, p.2))

/-- Members of a JSON object after the opening brace (non-empty case). -/
def parseJsonMembers : Nat → List Char → Option (List (String × Json) × List Char)
  | 0, _ => none
  | fuel + 1, cs =>
      match skipJsonWs cs with
      | '"' :: rest =>
          (match parseStringBody rest with
           | none => none
           | some (key, rest2) =>
               match skipJsonWs rest2 with
               | ':' :: rest3 =>
                   (match parseJsonValue fuel rest3 with
                    | none => none
                    | some (v, rest4) =>
                        match skipJsonWs rest4 with
                        | ',' :: rest5 =>
                            (parseJsonMembers fuel rest5).map
                              (fun p => ((String.mk key, v) :: p.1, p.2))
                        | '}' :: rest5 => some ([(String.mk key, v)], rest5)
                        | _ => none)
               | _ => none)
      | _ => none

/-- Elements of a JSON array after the opening bracket (non-empty case). -/
def parseJsonElems : Nat → List Char → Option (List Json × List Char)
  | 0, _ => none
  | fuel + 1, cs =>
      match parseJsonValue fuel cs with
      | none => none
      | some (v, rest) =>
          match skipJsonWs rest with
          | ',' :: rest2 => (parseJsonElems fuel rest2).map (fun p => (v :: p.1, p.2))
          | ']' :: rest2 => some ([v], rest2)
          | _ => none

end

/-- `json.loads(s)`: parse one document and require only whitespace after
it. -/
def jsonLoads (s : String) : Option Json :=
  let cs := s.toList
  match parseJsonValue (2 * cs.length + 2) cs with
  | some (v, rest) => if skipJsonWs rest = [] then some v else none
  | none => none

/-! ### Regex rewriting steps

Each `re.sub` of the two normalizers, as a deterministic left-to-right
scanner (the character classes involved admit no backtracking). -/

/-- Word characters for the regex `\b` boundary (ASCII range). -/
def isWordChar (c : Char) : Bool :=
  c.isAlpha || c.isDigit || c = '_'

/-- Scanner for `re.sub(r'\bNEEDLE\b', repl, s)` with needle `n :: ns`;
`prev` is the character before the current position.  Fuel-bounded;
every step consumes at least one character. -/
def subWordBoundGo (n : Char) (ns : List Char) (repl : List Char) :
    Nat → Option Char → List Char → List Char
  | 0, _, cs => cs
  | _, _, [] => []
  | fuel + 1, prev, c :: rest =>
      let needle := n :: ns
      let prevOk := match prev with | none => true | some p => !isWordChar p
      let after := (c :: rest).drop needle.length
      let afterOk := match after with | [] => true | a :: _ => !isWordChar a
      if startsWithL needle (c :: rest) && prevOk && afterOk then
        repl ++
          subWordBoundGo n ns repl fuel (some (ns.getLastD n)) (rest.drop ns.length)
      else c :: subWordBoundGo n ns repl fuel (some c) rest

/-- `re.sub(r'\bNEEDLE\b', repl, s)` for a word-only needle. -/
def subWordBound (needle repl s : String) : String :=
  match needle.toList with
  | [] => s
  | n :: ns =>
      String.mk (subWordBoundGo n ns repl.toList (s.toList.length + 1) none s.toList)

/-- First character of a JavaScript identifier, `[a-zA-Z_$]`. -/
def isIdentStart (c : Char) : Bool :=
  c.isAlpha || c = '_' || c = '$'

/-- Later characters of a JavaScript identifier, `[a-zA-Z0-9_$]`. -/
def isIdentChar (c : Char) : Bool :=
  isIdentStart c || c.isDigit

/-- Attempt of `\s*([a-zA-Z_$][a-zA-Z0-9_$]*)\s*:` right after a boundary
character: on success, the replacement chunk (whitespace, quoted
identifier, colon — the whitespace before the colon is dropped by the
substitution `\1"\2":`) and the remainder after the match. -/
def tryKeyAt (rest : List Char) : Option (List Char × List Char) :=
  let ws1 := rest.takeWhile isPyWs
  match rest.drop ws1.length with
  | i :: r2 =>
      if isIdentStart i then
        let idr := r2.takeWhile isIdentChar
        let r3 := r2.drop idr.length
        let ws2 := r3.takeWhile isPyWs
        match r3.drop ws2.length with
        | ':' :: r5 => some (ws1 ++ '"' :: i :: (idr ++ ['"', ':']), r5)
        | _ => none
      else none
  | [] => none

/-- Scanner for the bare-key quoting
`re.sub(r'([BOUND]\s*)([a-zA-Z_$][a-zA-Z0-9_$]*)\s*:', r'\1"\2":', s)`;
`bound` is the boundary character class (`[{,]` in the scraper, `[{,\[]`
in the converter).  Fuel-bounded; every step consumes at least one
character, so `length + 1` fuel is exact. -/
def quoteKeysGo (bound : Char → Bool) : Nat → List Char → List Char
  | 0, cs => cs
  | _, [] => []
  | fuel + 1, c :: rest =>
      if bound c then
        match tryKeyAt rest with
        | some p => c :: (p.1 ++ quoteKeysGo bound fuel p.2)
        | none => c :: quoteKeysGo bound fuel rest
      else c :: quoteKeysGo bound fuel rest

/-- Bare-key quoting step. -/
def quoteKeys (bound : Char → Bool) (s : String) : String :=
  String.mk (quoteKeysGo bound (s.toList.length + 1) s.toList)

/-- Python `value.isdigit()` for ASCII text. -/
def isAllDigits (cs : List Char) : Bool :=
  !cs.isEmpty && cs.all Char.isDigit

/-- Is the identifier one of the literals the converter's value callbacks
leave alone (`true`, `false`, `null`, or all digits). -/
def isReservedValue (ident : List Char) : Bool :=
  ident = "true".toList || ident = "false".toList || ident = "null".toList
    || isAllDigits ident

/-- Attempt of `\s*([a-zA-Z_$][a-zA-Z0-9_$]*)(?=\s*[,}\]])` right after a
colon: the consumed whitespace, the identifier, and the remainder after
the identifier (the lookahead is not consumed). -/
def tryValueAt (rest : List Char) : Option (List Char × List Char × List Char) :=
  let ws1 := rest.takeWhile isPyWs
  match rest.drop ws1.length with
  | i :: r2 =>
      if isIdentStart i then
        let idr := r2.takeWhile isIdentChar
        let r3 := r2.drop idr.length
        let ws2 := r3.takeWhile isPyWs
        match r3.drop ws2.length with
        | c :: _ =>
            if c = ',' || c = '}' || c = ']' then some (ws1, i :: idr, r3) else none
        | [] => none
      else none
  | [] => none

/-- Scanner for the unquoted-value rewriting of
`parse_js_object_to_json` (src/convert_raw_content.py, lines 50-56):
`re.sub(r':\s*([a-zA-Z_$][a-zA-Z0-9_$]*)(?=\s*[,}\]])', replace_value, s)`
where the callback quotes the identifier (dropping the matched
whitespace, per `f': "{value}"'`) unless it is a reserved literal. -/
def replaceValuesGo : Nat → List Char → List Char
  | 0, cs => cs
  | _, [] => []
  | fuel + 1, c :: rest =>
      if c = ':' then
        match tryValueAt rest with
        | some (ws1, ident, r3) =>
            if isReservedValue ident then
              c :: (ws1 ++ ident ++ replaceValuesGo fuel r3)
            else c :: (' ' :: '"' :: ident ++ '"' :: replaceValuesGo fuel r3)
        | none => c :: replaceValuesGo fuel rest
      else c :: replaceValuesGo fuel rest

/-- Unquoted-value rewriting step of the converter. -/
def replaceValues (s : String) : String :=
  String.mk (replaceValuesGo (s.toList.length + 1) s.toList)

/-- Attempt of `\s*([a-zA-Z_$][a-zA-Z0-9_$]*)(?=\s*[,\]])` right after `[`
or `,` for the array-element callback. -/
def tryArrayValueAt (rest : List Char) : Option (List Char × List Char × List Char) :=
  let ws1 := rest.takeWhile isPyWs
  match rest.drop ws1.length with
  | i :: r2 =>
      if isIdentStart i then
        let idr := r2.takeWhile isIdentChar
        let r3 := r2.drop idr.length
        let ws2 := r3.takeWhile isPyWs
        match r3.drop ws2.length with
        | c :: _ => if c = ',' || c = ']' then some (ws1, i :: idr, r3) else none
        | [] => none
      else none
  | [] => none

/-- Scanner for the array-element rewriting of `parse_js_object_to_json`
(lines 59-66):
`re.sub(r'(\[\s*|,\s*)([a-zA-Z_$][a-zA-Z0-9_$]*)(?=\s*[,\]])',
replace_array_value, s)`; the prefix group is kept verbatim. -/
def replaceArrayValuesGo : Nat → List Char → List Char
  | 0, cs => cs
  | _, [] => []
  | fuel + 1, c :: rest =>
      if c = '[' || c = ',' then
        match tryArrayValueAt rest with
        | some (ws1, ident, r3) =>
            if isReservedValue ident then
              c :: (ws1 ++ ident ++ replaceArrayValuesGo fuel r3)
            else c :: (ws1 ++ '"' :: ident ++ '"' :: replaceArrayValuesGo fuel r3)
        | none => c :: replaceArrayValuesGo fuel rest
      else c :: replaceArrayValuesGo fuel rest

/-- Array-element rewriting step of the converter. -/
def replaceArrayValues (s : String) : String :=
  String.mk (replaceArrayValuesGo (s.toList.length + 1) s.toList)

/-- Scanner for `re.sub(r"'([^']*)'(?=\s*LOOKAHEAD)", r'"\1"', s)`, the
single-to-double quote normalisation; `look` is the lookahead character
class (`[,}]` in the scraper, `[,}\]]` in the converter). -/
def singleQuotesGo (look : Char → Bool) : Nat → List Char → List Char
  | 0, cs => cs
  | _, [] => []
  | fuel + 1, c :: rest =>
      if c = '\'' then
        let body := rest.takeWhile (fun x => x ≠ '\'')
        match rest.drop body.length with
        | '\'' :: r2 =>
            let ws := r2.takeWhile isPyWs
            match r2.drop ws.length with
            | l :: _ =>
                if look l then '"' :: (body ++ '"' :: singleQuotesGo look fuel r2)
                else c :: singleQuotesGo look fuel rest
            | [] => c :: singleQuotesGo look fuel rest
        | _ => c :: singleQuotesGo look fuel rest
      else c :: singleQuotesGo look fuel rest

/-- Single-quote normalisation step. -/
def singleQuotes (look : Char → Bool) (s : String) : String :=
  String.mk (singleQuotesGo look (s.toList.length + 1) s.toList)

/-- Scanner for `re.sub(r'//.*?$', '', s, flags=re.MULTILINE)`: from every
`//` on, drop the rest of the line (a `//` inside a quoted string is
rewritten like any other, since the regex knows nothing of strings). -/
def stripLineCommentsGo : Nat → List Char → List Char
  | 0, cs => cs
  | _, [] => []
  | fuel + 1, c :: rest =>
      match c :: rest with
      | '/' :: '/' :: rest2 => stripLineCommentsGo fuel (rest2.dropWhile (fun x => x ≠ '\n'))
      | _ => c :: stripLineCommentsGo fuel rest

/-- Line-comment removal step of `_parse_js_object` (line 969). -/
def stripLineComments (s : String) : String :=
  String.mk (stripLineCommentsGo (s.toList.length + 1) s.toList)

/-- Scanner for `re.sub(r'/\*.*?\*/', '', s, flags=re.DOTALL)`: each
non-greedy block comment is removed. -/
def stripBlockCommentsGo : Nat → List Char → List Char
  | 0, cs => cs
  | _, [] => []
  | fuel + 1, c :: rest =>
      match c :: rest with
      | '/' :: '*' :: rest2 =>
          (match findSubPos "*/".toList rest2 with
           | some k => stripBlockCommentsGo fuel (rest2.drop (k + 2))
           | none => c :: stripBlockCommentsGo fuel rest)
      | _ => c :: stripBlockCommentsGo fuel rest

/-- Block-comment removal step of `_parse_js_object` (line 970). -/
def stripBlockComments (s : String) : String :=
  String.mk (stripBlockCommentsGo (s.toList.length + 1) s.toList)

/-- Attempt of `\s*\([^)]*\)\s*\{[^}]*\}` right after the literal
`function`: the remainder after the closing brace. -/
def tryFunctionAt (r0 : List Char) : Option (List Char) :=
  let ws1 := r0.takeWhile isPyWs
  match r0.drop ws1.length with
  | '(' :: r1 =>
      let ps := r1.takeWhile (fun x => x ≠ ')')
      match r1.drop ps.length with
      | ')' :: r2 =>
          let ws2 := r2.takeWhile isPyWs
          match r2.drop ws2.length with
          | '{' :: r3 =>
              let body := r3.takeWhile (fun x => x ≠ '}')
              match r3.drop body.length with
              | '}' :: r4 => some r4
              | _ => none
          | _ => none
      | _ => none
  | _ => none

/-- Scanner for
`re.sub(r'function\s*\([^)]*\)\s*\{[^}]*\}', 'null', s)`. -/
def stripFunctionsGo : Nat → List Char → List Char
  | 0, cs => cs
  | _, [] => []
  | fuel + 1, c :: rest =>
      if startsWithL "function".toList (c :: rest) then
        match tryFunctionAt ((c :: rest).drop 8) with
        | some r4 => 'n' :: 'u' :: 'l' :: 'l' :: stripFunctionsGo fuel r4
        | none => c :: stripFunctionsGo fuel rest
      else c :: stripFunctionsGo fuel rest

/-- Function-literal removal step of `_parse_js_object` (line 973). -/
def stripFunctions (s : String) : String :=
  String.mk (stripFunctionsGo (s.toList.length + 1) s.toList)

/-- The whole rewriting pipeline of `_parse_js_object` (lines 952-973),
in source order: `undefined`→`null`, the identity rewrites of `true` and
`false`, bare-key quoting, single-quote normalisation, comment removal,
function-literal removal. -/
def parseJsObjectRewrite (s : String) : String :=
  let s1 := subWordBound "undefined" "null" s
  let s2 := subWordBound "true" "true" s1
  let s3 := subWordBound "false" "false" s2
  let s4 := quoteKeys (fun c => c = '{' || c = ',') s3
  let s5 := singleQuotes (fun c => c = ',' || c = '}') s4
  let s6 := stripLineComments s5
  let s7 := stripBlockComments s6
  stripFunctions s7

/-- The JSON branch of `_parse_js_object` (line 976): the rewritten text
fed to `json.loads`.  `_parse_js_object` returns exactly this result
whenever it is `some`; the `ast.literal_eval` fallback of lines 982-1000
runs only when this parse fails. -/
def parseJsObjectJsonPath (s : String) : Option Json :=
  jsonLoads (parseJsObjectRewrite s)

/-- `convert_unicode_escapes(text)` (src/convert_raw_content.py, lines
12-28): every `\uXXXX` sequence is decoded to its character (sequences
denoting no valid scalar are kept verbatim). -/
def convertUnicodeEscapesGo : List Char → List Char
  | [] => []
  | '\\' :: 'u' :: a :: b :: c :: d :: rest =>
      (match hexVal? a, hexVal? b, hexVal? c, hexVal? d with
       | some ha, some hb, some hc, some hd =>
           let code := ((ha * 16 + hb) * 16 + hc) * 16 + hd
           if _h : code.isValidChar then Char.ofNat code :: convertUnicodeEscapesGo rest
           else '\\' :: 'u' :: a :: b :: c :: d :: convertUnicodeEscapesGo rest
       | _, _, _, _ => '\\' :: convertUnicodeEscapesGo ('u' :: a :: b :: c :: d :: rest))
  | c :: rest => c :: convertUnicodeEscapesGo rest

/-- `convert_unicode_escapes(text)`. -/
def convertUnicodeEscapes (s : String) : String :=
  String.mk (convertUnicodeEscapesGo s.toList)

/-- `parse_js_object_to_json(js_obj_str)` (src/convert_raw_content.py,
lines 30-84): convert Unicode escapes, try a direct `json.loads`, and
only on failure run the rewriting steps and parse again. -/
def parseJsObjectToJson (s : String) : Option Json :=
  let s0 := convertUnicodeEscapes s
  match jsonLoads s0 with
  | some v => some v
  | none =>
      let s1 := quoteKeys (fun c => c = '{' || c = ',' || c = '[') s0
      let s2 := replaceValues s1
      let s3 := replaceArrayValues s2
      let s4 := singleQuotes (fun c => c = ',' || c = '}' || c = ']') s3
      let s5 := subWordBound "undefined" "null" s4
      jsonLoads s5

/-! ## Helper lemmas -/

theorem dictGet_dictSet_self {α : Type} (d : List (String × α)) (k : String) (v : α) :
    dictGet (dictSet d k v) k = some v := by
  induction d with
  | nil => simp [dictSet, dictGet, List.find?]
  | cons p rest ih =>
      obtain ⟨k', v'⟩ := p
      by_cases h : k' = k
      · subst h
        simp [dictSet, dictGet, List.find?]
      · simp only [dictSet, if_neg h]
        simpa [dictGet, List.find?, h] using ih

theorem dictGet_dictSet_ne {α : Type} (d : List (String × α)) (k k' : String) (v : α)
    (h : k ≠ k') : dictGet (dictSet d k' v) k = dictGet d k := by
  induction d with
  | nil => simp [dictSet, dictGet, List.find?, Ne.symm h]
  | cons p rest ih =>
      obtain ⟨k0, v0⟩ := p
      by_cases h0 : k0 = k'
      · subst h0
        simp [dictSet, dictGet, List.find?, Ne.symm h]
      · by_cases h1 : k0 = k
        · subst h1
          simp [dictSet, if_neg h0, dictGet, List.find?]
        · simp only [dictSet, if_neg h0]
          simpa [dictGet, List.find?, h1] using ih

theorem dictKeys_dictSet_mem {α : Type} (d : List (String × α)) (k : String) (v : α)
    (h : k ∈ dictKeys d) : dictKeys (dictSet d k v) = dictKeys d := by
  induction d with
  | nil => simp [dictKeys] at h
  | cons p rest ih =>
      obtain ⟨k0, v0⟩ := p
      have hcons : dictKeys ((k0, v0) :: rest) = k0 :: dictKeys rest := rfl
      by_cases h0 : k0 = k
      · subst h0
        simp [dictSet, dictKeys]
      · have hmem : k ∈ dictKeys rest := by
          rw [hcons] at h
          exact (List.mem_cons.mp h).resolve_left (fun hh => h0 hh.symm)
        simp only [dictSet, if_neg h0, hcons]
        have := ih hmem
        simp only [dictKeys] at this ⊢
        simp [this]

theorem dictKeys_dictSet_not_mem {α : Type} (d : List (String × α)) (k : String) (v : α)
    (h : ¬ k ∈ dictKeys d) : dictKeys (dictSet d k v) = dictKeys d ++ [k] := by
  induction d with
  | nil => simp [dictSet, dictKeys]
  | cons p rest ih =>
      obtain ⟨k0, v0⟩ := p
      have hcons : dictKeys ((k0, v0) :: rest) = k0 :: dictKeys rest := rfl
      rw [hcons] at h
      have h0 : k0 ≠ k := by
        intro hh
        exact h (hh ▸ List.mem_cons_self k0 (dictKeys rest))
      have hrest : ¬ k ∈ dictKeys rest := fun hh => h (List.mem_cons_of_mem _ hh)
      simp only [dictSet, if_neg h0, hcons]
      have := ih hrest
      simp only [dictKeys] at this ⊢
      simp [this]

theorem getLast?_cons_of_ne_nil {α : Type} (c : α) {l : List α} (h : l ≠ []) :
    (c :: l).getLast? = l.getLast? := by
  cases l with
  | nil => exact absurd rfl h
  | cons a l' => exact List.getLast?_cons_cons

theorem netBraces_cons (c : Char) (l : List Char) :
    netBraces (c :: l) =
      (if c = '{' then 1 else if c = '}' then (-1 : Int) else 0) + netBraces l := by
  by_cases h1 : c = '{'
  · subst h1
    simp [netBraces, List.count_cons]
    ring
  · by_cases h2 : c = '}'
    · subst h2
      simp [netBraces, List.count_cons, h1]
      ring
    · simp [netBraces, List.count_cons, h1, h2]

theorem scanBraces_spec :
    ∀ (cs : List Char) (k : Int) (s : List Char), scanBraces cs k = some s →
      (∃ t, s ++ t = cs) ∧ s.getLast? = some '}' ∧ k + netBraces s = 0 ∧
      (∀ p, (∃ q, p ++ q = s) → p ≠ s → p.getLast? = some '}' →
        k + netBraces p ≠ 0) := by
  intro cs
  induction cs with
  | nil => intro k s h; simp [scanBraces] at h
  | cons c rest ih =>
      intro k s h
      simp only [scanBraces] at h
      by_cases hc : c = '{'
      · rw [if_pos hc] at h
        obtain ⟨l, hl, hs⟩ := Option.map_eq_some'.mp h
        subst hs
        obtain ⟨⟨t, ht⟩, hlast, hbal, hmin⟩ := ih (k + 1) l hl
        have hlne : l ≠ [] := by
          intro hnil
          rw [hnil] at hlast
          simp at hlast
        refine ⟨⟨t, by simp [ht]⟩, ?_, ?_, ?_⟩
        · rw [getLast?_cons_of_ne_nil c hlne]
          exact hlast
        · rw [netBraces_cons, if_pos hc]
          omega
        · intro p ⟨q, hpq⟩ hne hplast
          cases p with
          | nil => simp at hplast
          | cons c0 p' =>
              obtain ⟨hc0, hp'q⟩ : c0 = c ∧ p' ++ q = l := by
                have := hpq
                simp only [List.cons_append, List.cons.injEq] at this
                exact this
              subst hc0
              cases p' with
              | nil =>
                  rw [hc] at hplast
                  simp at hplast
              | cons c1 p'' =>
                  have hp'ne : (c1 :: p'') ≠ l := by
                    intro hh
                    exact hne (by rw [hh])
                  have hplast' : (c1 :: p'').getLast? = some '}' := by
                    rwa [getLast?_cons_of_ne_nil c0 (by simp)] at hplast
                  have := hmin (c1 :: p'') ⟨q, hp'q⟩ hp'ne hplast'
                  rw [netBraces_cons c0, if_pos hc]
                  omega
      · by_cases hc2 : c = '}'
        · rw [if_neg hc, if_pos hc2] at h
          by_cases hk : k - 1 = 0
          · rw [if_pos hk] at h
            have hs : s = [c] := by
              injection h with h'
              exact h'.symm
            subst hs
            refine ⟨⟨rest, rfl⟩, by simp [hc2], ?_, ?_⟩
            · rw [netBraces_cons, if_neg hc, if_pos hc2]
              simp [netBraces]
              omega
            · intro p ⟨q, hpq⟩ hne hplast
              cases p with
              | nil => simp at hplast
              | cons c0 p' =>
                  obtain ⟨hc0, hp'q⟩ : c0 = c ∧ p' ++ q = [] := by
                    have := hpq
                    simp only [List.cons_append, List.cons.injEq] at this
                    exact this
                  have : p' = [] := by
                    rcases List.append_eq_nil.mp hp'q with ⟨h1, _⟩
                    exact h1
                  subst this
                  exact absurd (by rw [hc0]) hne
          · rw [if_neg hk] at h
            obtain ⟨l, hl, hs⟩ := Option.map_eq_some'.mp h
            subst hs
            obtain ⟨⟨t, ht⟩, hlast, hbal, hmin⟩ := ih (k - 1) l hl
            have hlne : l ≠ [] := by
              intro hnil
              rw [hnil] at hlast
              simp at hlast
            refine ⟨⟨t, by simp [ht]⟩, ?_, ?_, ?_⟩
            · rw [getLast?_cons_of_ne_nil c hlne]
              exact hlast
            · rw [netBraces_cons, if_neg hc, if_pos hc2]
              omega
            · intro p ⟨q, hpq⟩ hne hplast
              cases p with
              | nil => simp at hplast
              | cons c0 p' =>
                  obtain ⟨hc0, hp'q⟩ : c0 = c ∧ p' ++ q = l := by
                    have := hpq
                    simp only [List.cons_append, List.cons.injEq] at this
                    exact this
                  subst hc0
                  cases p' with
                  | nil =>
                      rw [netBraces_cons, if_neg hc, if_pos hc2]
                      simp [netBraces]
                      omega
                  | cons c1 p'' =>
                      have hp'ne : (c1 :: p'') ≠ l := by
                        intro hh
                        exact hne (by rw [hh])
                      have hplast' : (c1 :: p'').getLast? = some '}' := by
                        rwa [getLast?_cons_of_ne_nil c0 (by simp)] at hplast
                      have := hmin (c1 :: p'') ⟨q, hp'q⟩ hp'ne hplast'
                      rw [netBraces_cons c0, if_neg hc, if_pos hc2]
                      omega
        · rw [if_neg hc, if_neg hc2] at h
          obtain ⟨l, hl, hs⟩ := Option.map_eq_some'.mp h
          subst hs
          obtain ⟨⟨t, ht⟩, hlast, hbal, hmin⟩ := ih k l hl
          have hlne : l ≠ [] := by
            intro hnil
            rw [hnil] at hlast
            simp at hlast
          refine ⟨⟨t, by simp [ht]⟩, ?_, ?_, ?_⟩
          · rw [getLast?_cons_of_ne_nil c hlne]
            exact hlast
          · rw [netBraces_cons, if_neg hc, if_neg hc2]
            omega
          · intro p ⟨q, hpq⟩ hne hplast
            cases p with
            | nil => simp at hplast
            | cons c0 p' =>
                obtain ⟨hc0, hp'q⟩ : c0 = c ∧ p' ++ q = l := by
                  have := hpq
                  simp only [List.cons_append, List.cons.injEq] at this
                  exact this
                subst hc0
                cases p' with
                | nil =>
                    have hceq : c0 = '}' := by
                      simpa using hplast
                    exact absurd hceq hc2
                | cons c1 p'' =>
                    have hp'ne : (c1 :: p'') ≠ l := by
                      intro hh
                      exact hne (by rw [hh])
                    have hplast' : (c1 :: p'').getLast? = some '}' := by
                      rwa [getLast?_cons_of_ne_nil c0 (by simp)] at hplast
                    have := hmin (c1 :: p'') ⟨q, hp'q⟩ hp'ne hplast'
                    rw [netBraces_cons c0, if_neg hc, if_neg hc2]
                    omega

/-- C1 (amended): `_extract_balanced_braces` / `_extract_balanced_braces_simple`
count every brace character, including those inside quoted string
literals (there is no quote or escape tracking).  A returned span is the
prefix of the text from the start index up to and including the first `}`
at which the running brace count returns to zero: it ends in `}`, its net
brace balance is zero, and no shorter prefix ending in `}` balances.  On
the spec's example `{"a":"}","b":{"c":1}}` (a 21-character string) started
at index 0 both extractors therefore return the 7-character prefix
`{"a":"}`, stopping at the `}` inside the quoted value, not the whole
string. -/
theorem extractBalancedBraces_quoteBlind :
    (∀ (text : String) (startPos : Nat) (s : String),
      extractBalancedBraces text startPos = some s →
      (∃ t, s.toList ++ t = text.toList.drop startPos) ∧
      s.toList.getLast? = some '}' ∧ netBraces s.toList = 0 ∧
      (∀ p, (∃ q, p ++ q = s.toList) → p ≠ s.toList → p.getLast? = some '}' →
        netBraces p ≠ 0)) ∧
    extractBalancedBraces "\x7b\"a\":\"\x7d\",\"b\":\x7b\"c\":1\x7d\x7d" 0 =
      some "\x7b\"a\":\"\x7d" ∧
    extractBalancedBracesSimple "\x7b\"a\":\"\x7d\",\"b\":\x7b\"c\":1\x7d\x7d" 0 =
      some "\x7b\"a\":\"\x7d" ∧
    ("\x7b\"a\":\"\x7d" : String).length = 7 ∧
    ("\x7b\"a\":\"\x7d\",\"b\":\x7b\"c\":1\x7d\x7d" : String).length = 21 := by
  refine ⟨?_, rfl, rfl, rfl, rfl⟩
  intro text startPos s h
  obtain ⟨l, hl, hs⟩ := Option.map_eq_some'.mp h
  have hsl : s.toList = l := by
    rw [← hs]
    rfl
  obtain ⟨hpre, hlast, hbal, hmin⟩ := scanBraces_spec _ 0 l hl
  rw [hsl]
  refine ⟨hpre, hlast, by omega, ?_⟩
  intro p hp hne hpl
  have := hmin p hp hne hpl
  omega

/-- C1 (witness): the characterization applied to the example input. -/
theorem extractBalancedBraces_quoteBlind_witness :
    (∃ t, ("\x7b\"a\":\"\x7d" : String).toList ++ t =
        ("\x7b\"a\":\"\x7d\",\"b\":\x7b\"c\":1\x7d\x7d" : String).toList.drop 0) ∧
    ("\x7b\"a\":\"\x7d" : String).toList.getLast? = some '}' ∧
    netBraces ("\x7b\"a\":\"\x7d" : String).toList = 0 ∧
    (∀ p, (∃ q, p ++ q = ("\x7b\"a\":\"\x7d" : String).toList) →
      p ≠ ("\x7b\"a\":\"\x7d" : String).toList → p.getLast? = some '}' →
      netBraces p ≠ 0) :=
  extractBalancedBraces_quoteBlind.1 "\x7b\"a\":\"\x7d\",\"b\":\x7b\"c\":1\x7d\x7d" 0
    "\x7b\"a\":\"\x7d" rfl

/-- C1 (counterexample): on the spec's own example, started at the index
of the opening brace, the extractor stops at the `}` inside the quoted
value, returning the 7-character prefix and not the whole string — the
quoted-string tracking the claim describes does not exist in these
functions. -/
theorem extractBalancedBraces_counterexample :
    extractBalancedBraces "\x7b\"a\":\"\x7d\",\"b\":\x7b\"c\":1\x7d\x7d" 0 =
      some "\x7b\"a\":\"\x7d" ∧
    extractBalancedBraces "\x7b\"a\":\"\x7d\",\"b\":\x7b\"c\":1\x7d\x7d" 0 ≠
      some "\x7b\"a\":\"\x7d\",\"b\":\x7b\"c\":1\x7d\x7d" ∧
    extractBalancedBracesSimple "\x7b\"a\":\"\x7d\",\"b\":\x7b\"c\":1\x7d\x7d" 0 ≠
      some "\x7b\"a\":\"\x7d\",\"b\":\x7b\"c\":1\x7d\x7d" := by
  refine ⟨rfl, ?_, ?_⟩ <;> decide

/-- C2 (amended): the persistence stage of `update_team_members_to_db`
includes EVERY assembled roster entry in the `person` array written to
the store, regardless of its display name: the written list has exactly
one projected record per input member, the record at position `i` carries
the (possibly empty) name of input member `i`, and the whole list is what
is stored under the `person` key.  No empty-name filtering exists. -/
theorem updateTeamMembers_no_name_filter :
    ∀ (members : List Dict) (now : PyData),
      (personDataOf members).length = members.length ∧
      (∀ i (hi : i < members.length),
        dictGet ((personDataOf members).get ⟨i, by simpa [personDataOf] using hi⟩)
            "name" =
          some (dictGetD (members.get ⟨i, hi⟩) "name" (.pstr "")) ∧
        dictGet ((personDataOf members).get ⟨i, by simpa [personDataOf] using hi⟩)
            "position" =
          some (dictGetD (members.get ⟨i, hi⟩) "position" (.pstr ""))) ∧
      dictGet (updateTeamMembersData members now) "person" =
        some (.plist ((personDataOf members).map .pdict)) := by
  intro members now
  refine ⟨by simp [personDataOf], ?_, rfl⟩
  intro i hi
  constructor
  · have : (personDataOf members).get ⟨i, by simpa [personDataOf] using hi⟩ =
        mkPersonInfo (members.get ⟨i, hi⟩) := by
      simp [personDataOf]
    rw [this]
    rfl
  · have : (personDataOf members).get ⟨i, by simpa [personDataOf] using hi⟩ =
        mkPersonInfo (members.get ⟨i, hi⟩) := by
      simp [personDataOf]
    rw [this]
    rfl

/-- C2 (witness): a one-member list whose entry has an empty name. -/
theorem updateTeamMembers_no_name_filter_witness :
    (personDataOf [[("index", .pint 1), ("position", .pstr "前锋"),
        ("name", .pstr "")]]).length = 1 ∧
    (∀ i (hi : i < ([[("index", PyData.pint 1), ("position", PyData.pstr "前锋"),
        ("name", PyData.pstr "")]] : List Dict).length),
      dictGet ((personDataOf [[("index", .pint 1), ("position", .pstr "前锋"),
          ("name", .pstr "")]]).get
          ⟨i, by simpa [personDataOf] using hi⟩) "name" =
        some (dictGetD (([[("index", PyData.pint 1), ("position", PyData.pstr "前锋"),
            ("name", PyData.pstr "")]] : List Dict).get ⟨i, hi⟩) "name" (.pstr "")) ∧
      dictGet ((personDataOf [[("index", .pint 1), ("position", .pstr "前锋"),
          ("name", .pstr "")]]).get
          ⟨i, by simpa [personDataOf] using hi⟩) "position" =
        some (dictGetD (([[("index", PyData.pint 1), ("position", PyData.pstr "前锋"),
            ("name", PyData.pstr "")]] : List Dict).get ⟨i, hi⟩) "position" (.pstr ""))) ∧
    dictGet (updateTeamMembersData [[("index", .pint 1), ("position", .pstr "前锋"),
        ("name", .pstr "")]] .pnone) "person" =
      some (.plist ((personDataOf [[("index", .pint 1), ("position", .pstr "前锋"),
        ("name", .pstr "")]]).map .pdict)) :=
  updateTeamMembers_no_name_filter
    [[("index", .pint 1), ("position", .pstr "前锋"), ("name", .pstr "")]] .pnone

/-- C2 (counterexample): an entry whose display name is empty but whose
position and jersey number are populated IS included in the persisted
`person` data, with name `""` — refuting the claim that such an entry is
discarded before persistence. -/
theorem updateTeamMembers_counterexample :
    (personDataOf [[("index", .pint 1), ("position", .pstr "前锋"),
        ("jersey_number", .pstr "9"), ("name", .pstr "")]]).length = 1 ∧
    dictGet ((personDataOf [[("index", .pint 1), ("position", .pstr "前锋"),
        ("jersey_number", .pstr "9"), ("name", .pstr "")]]).headI) "name" =
      some (.pstr "") ∧
    dictGet ((personDataOf [[("index", .pint 1), ("position", .pstr "前锋"),
        ("jersey_number", .pstr "9"), ("name", .pstr "")]]).headI) "position" =
      some (.pstr "前锋") ∧
    personDataOf [[("index", .pint 1), ("position", .pstr "前锋"),
        ("jersey_number", .pstr "9"), ("name", .pstr "")]] ≠ [] :=
  ⟨rfl, rfl, rfl, by simp [personDataOf]⟩

theorem dictKeys_dictSet_congr {α : Type} (d d' : List (String × α)) (k : String)
    (v v' : α) (h : dictKeys d = dictKeys d') :
    dictKeys (dictSet d k v) = dictKeys (dictSet d' k v') := by
  by_cases hm : k ∈ dictKeys d
  · rw [dictKeys_dictSet_mem d k v hm, dictKeys_dictSet_mem d' k v' (h ▸ hm), h]
  · rw [dictKeys_dictSet_not_mem d k v hm,
      dictKeys_dictSet_not_mem d' k v' (fun hh => hm (h ▸ hh)), h]

theorem setEnrichment_keys_indep (m : Dict) (v1 v2 v1' v2' : PyData) :
    dictKeys (setEnrichment m v1 v2) = dictKeys (setEnrichment m v1' v2') := by
  unfold setEnrichment
  exact dictKeys_dictSet_congr _ _ _ _ _ (dictKeys_dictSet_congr _ _ _ _ _ rfl)

theorem enrichOne_shape (i : Nat) (m : Dict) (schema : List Dict) :
    ∃ v1 v2, enrichOne i m schema = setEnrichment m v1 v2 := by
  unfold enrichOne
  rcases h : matchMemberWithSchema m schema with _ | s
  · by_cases hi : i < schema.length
    · rw [dif_pos hi]
      exact ⟨_, _, rfl⟩
    · rw [dif_neg hi]
      exact ⟨_, _, rfl⟩
  · exact ⟨_, _, rfl⟩

/-- C3 (amended): the reconciler tries, for each DOM entry, (1) an exact
stripped-name match, (2) a match on names lowercased and stripped of
whitespace/hyphens/periods, (3) pairing by shared list index, with empty
strings when even the index is out of range — but NO provenance or
match-method flag is recorded: every merged entry is exactly the input
entry with `person_id` and `detailed_type` set, so an index-paired entry
exposes the same field names as a name-matched one and the two are
indistinguishable in the output. -/
theorem matchAndEnrich_order_no_flag :
    (∀ (m : Dict) (schema : List Dict) (s : Dict),
      pyStrip (memberName m) ≠ "" →
      schema.find? (fun sm => pyStrip (memberName sm) = pyStrip (memberName m)) =
        some s →
      matchMemberWithSchema m schema = some s) ∧
    (∀ (m : Dict) (schema : List Dict),
      pyStrip (memberName m) ≠ "" →
      schema.find? (fun sm => pyStrip (memberName sm) = pyStrip (memberName m)) =
        none →
      matchMemberWithSchema m schema =
        schema.find? (fun sm =>
          normalizeName (pyStrip (memberName sm)) =
            normalizeName (pyStrip (memberName m)))) ∧
    (∀ (members schema : List Dict),
      (matchAndEnrich members schema).length = members.length) ∧
    (∀ (members schema : List Dict) (i : Nat) (m s : Dict),
      schema ≠ [] → members.get? i = some m →
      matchMemberWithSchema m schema = none → schema.get? i = some s →
      (matchAndEnrich members schema).get? i =
        some (setEnrichment m (dictGetD s "person_id" (.pstr ""))
          (dictGetD s "detailed_type" (.pstr "")))) ∧
    (∀ (i : Nat) (m : Dict) (schema : List Dict),
      ∃ v1 v2, enrichOne i m schema = setEnrichment m v1 v2) ∧
    (∀ (i i' : Nat) (m : Dict) (schema schema' : List Dict),
      dictKeys (enrichOne i m schema) = dictKeys (enrichOne i' m schema')) := by
  refine ⟨?_, ?_, ?_, ?_, enrichOne_shape, ?_⟩
  · intro m schema s hne hfind
    simp only [matchMemberWithSchema, if_neg hne]
    rw [hfind]
  · intro m schema hne hfind
    simp only [matchMemberWithSchema, if_neg hne]
    rw [hfind]
  · intro members schema
    cases schema with
    | nil => simp [matchAndEnrich]
    | cons a l => simp [matchAndEnrich]
  · intro members schema i m s hne hget hmatch hs
    cases schema with
    | nil => exact absurd rfl hne
    | cons a l =>
        simp only [matchAndEnrich, List.get?_map, List.get?_enum, hget,
          Option.map_some']
        obtain ⟨hi, hgs⟩ := List.get?_eq_some.mp hs
        simp only [enrichOne, hmatch, dif_pos hi, hgs]
  · intro i i' m schema schema'
    obtain ⟨v1, v2, h1⟩ := enrichOne_shape i m schema
    obtain ⟨v1', v2', h2⟩ := enrichOne_shape i' m schema'
    rw [h1, h2]
    exact setEnrichment_keys_indep m v1 v2 v1' v2'

/-- C3 (witness): the index-fallback branch applied to concrete lists
where the second DOM entry matches no schema name. -/
theorem matchAndEnrich_order_no_flag_witness :
    (matchAndEnrich
        [[("index", .pint 1), ("name", .pstr "Alice")],
         [("index", .pint 2), ("name", .pstr "Bob")]]
        [[("name", .pstr "Alice"), ("person_id", .pstr "1"),
          ("detailed_type", .pstr "coach")],
         [("name", .pstr "Zed"), ("person_id", .pstr "2"),
          ("detailed_type", .pstr "player")]]).get? 1 =
      some (setEnrichment [("index", .pint 2), ("name", .pstr "Bob")]
        (dictGetD [("name", PyData.pstr "Zed"), ("person_id", PyData.pstr "2"),
          ("detailed_type", PyData.pstr "player")] "person_id" (.pstr ""))
        (dictGetD [("name", PyData.pstr "Zed"), ("person_id", PyData.pstr "2"),
          ("detailed_type", PyData.pstr "player")] "detailed_type" (.pstr ""))) :=
  matchAndEnrich_order_no_flag.2.2.2.1
    [[("index", .pint 1), ("name", .pstr "Alice")],
     [("index", .pint 2), ("name", .pstr "Bob")]]
    [[("name", .pstr "Alice"), ("person_id", .pstr "1"),
      ("detailed_type", .pstr "coach")],
     [("name", .pstr "Zed"), ("person_id", .pstr "2"),
      ("detailed_type", .pstr "player")]]
    1 [("index", .pint 2), ("name", .pstr "Bob")]
    [("name", .pstr "Zed"), ("person_id", .pstr "2"),
     ("detailed_type", .pstr "player")]
    (by simp) rfl rfl rfl

/-- C3 (counterexample): with DOM entries Alice and Bob against schema
entries Alice and Zed, entry 1 is name-matched and entry 2 is paired by
index, yet the two merged entries expose exactly the same field names
(`index`, `name`, `person_id`, `detailed_type`) — there is no
provenance/match-method flag distinguishing a positionally-paired entry
from a name-matched one. -/
theorem matchAndEnrich_counterexample :
    matchAndEnrich
        [[("index", .pint 1), ("name", .pstr "Alice")],
         [("index", .pint 2), ("name", .pstr "Bob")]]
        [[("name", .pstr "Alice"), ("person_id", .pstr "1"),
          ("detailed_type", .pstr "coach")],
         [("name", .pstr "Zed"), ("person_id", .pstr "2"),
          ("detailed_type", .pstr "player")]] =
      [[("index", .pint 1), ("name", .pstr "Alice"), ("person_id", .pstr "1"),
        ("detailed_type", .pstr "coach")],
       [("index", .pint 2), ("name", .pstr "Bob"), ("person_id", .pstr "2"),
        ("detailed_type", .pstr "player")]] ∧
    matchMemberWithSchema [("index", .pint 1), ("name", .pstr "Alice")]
        [[("name", .pstr "Alice"), ("person_id", .pstr "1"),
          ("detailed_type", .pstr "coach")],
         [("name", .pstr "Zed"), ("person_id", .pstr "2"),
          ("detailed_type", .pstr "player")]] =
      some [("name", .pstr "Alice"), ("person_id", .pstr "1"),
        ("detailed_type", .pstr "coach")] ∧
    matchMemberWithSchema [("index", .pint 2), ("name", .pstr "Bob")]
        [[("name", .pstr "Alice"), ("person_id", .pstr "1"),
          ("detailed_type", .pstr "coach")],
         [("name", .pstr "Zed"), ("person_id", .pstr "2"),
          ("detailed_type", .pstr "player")]] = none ∧
    dictKeys [("index", PyData.pint 1), ("name", PyData.pstr "Alice"),
        ("person_id", PyData.pstr "1"), ("detailed_type", PyData.pstr "coach")] =
      dictKeys [("index", PyData.pint 2), ("name", PyData.pstr "Bob"),
        ("person_id", PyData.pstr "2"), ("detailed_type", PyData.pstr "player")] :=
  ⟨rfl, rfl, rfl, rfl⟩

theorem mergeMembersCore_get? (scraped decompressed : List Dict) (i : Nat) (m : Dict)
    (h : scraped.get? i = some m) :
    (mergeMembersCore scraped decompressed).get? i =
      some (match decompressed.get? i with
        | some d => setEnrichment m (dictGetD d "person_id" (.pstr ""))
            (dictGetD d "type" (.pstr ""))
        | none => setEnrichment m .pnone .pnone) := by
  simp only [mergeMembersCore, List.get?_map, List.get?_enum, h, Option.map_some']
  rcases hd : decompressed.get? i with _ | d
  · have hle : decompressed.length ≤ i := List.get?_eq_none.mp hd
    rw [dif_neg (by omega)]
  · obtain ⟨hi, hgs⟩ := List.get?_eq_some.mp hd
    rw [dif_pos hi, hgs]

/-- C10 (amended): the merge preserves the scraped member list's length
and order and every field other than `person_id` and `detailed_type`
unchanged; those two fields are always (over)written — from the
decompressed entry at the same index, or with `None` beyond its length —
so a scraped member that already carries a `person_id` has it replaced.
At the top level only `merge_time`, `has_enhanced_data` and `members` are
touched. -/
theorem mergeWithDecompressed_frame :
    (∀ (scraped decompressed : List Dict),
      (mergeMembersCore scraped decompressed).length = scraped.length) ∧
    (∀ (scraped decompressed : List Dict) (i : Nat) (m : Dict) (k : String)
      (v : PyData),
      scraped.get? i = some m → k ≠ "person_id" → k ≠ "detailed_type" →
      dictGet m k = some v →
      ∃ m', (mergeMembersCore scraped decompressed).get? i = some m' ∧
        dictGet m' k = some v) ∧
    (∀ (sd dd : Dict) (mt : String) (k : String),
      k ≠ "merge_time" → k ≠ "has_enhanced_data" → k ≠ "members" →
      dictGet (mergeWithDecompressedData sd (some dd) mt) k = dictGet sd k) := by
  refine ⟨?_, ?_, ?_⟩
  · intro scraped decompressed
    simp [mergeMembersCore]
  · intro scraped decompressed i m k v hget hk1 hk2 hv
    refine ⟨_, mergeMembersCore_get? scraped decompressed i m hget, ?_⟩
    rcases decompressed.get? i with _ | d <;>
      simp only [setEnrichment] <;>
      rw [dictGet_dictSet_ne _ _ _ _ hk2, dictGet_dictSet_ne _ _ _ _ hk1] <;>
      exact hv
  · intro sd dd mt k h1 h2 h3
    cases dd with
    | nil => rfl
    | cons a l =>
        simp only [mergeWithDecompressedData]
        rw [dictGet_dictSet_ne _ _ _ _ h3, dictGet_dictSet_ne _ _ _ _ h2,
          dictGet_dictSet_ne _ _ _ _ h1]

/-- C10 (witness): frame preservation evaluated on a concrete merge. -/
theorem mergeWithDecompressed_frame_witness :
    (∃ m', (mergeMembersCore [[("name", .pstr "x"), ("person_id", .pstr "A")]]
        [[("person_id", .pstr "B")]]).get? 0 = some m' ∧
      dictGet m' "name" = some (.pstr "x")) ∧
    dictGet (mergeWithDecompressedData
        [("url", .pstr "u"), ("members", .plist [])]
        (some [("members", .plist [])]) "t") "url" = some (.pstr "u") :=
  ⟨mergeWithDecompressed_frame.2.1 [[("name", .pstr "x"), ("person_id", .pstr "A")]]
      [[("person_id", .pstr "B")]] 0 [("name", .pstr "x"), ("person_id", .pstr "A")]
      "name" (.pstr "x") rfl (by decide) (by decide) rfl,
    mergeWithDecompressed_frame.2.2 [("url", .pstr "u"), ("members", .plist [])]
      [("members", .plist [])] "t" "url" (by decide) (by decide) (by decide)⟩

/-- C10 (counterexample): a scraped member that already carries
`person_id` `"A"` has that value OVERWRITTEN with the decompressed entry's
`"B"` — refuting the claim that every key/value pair of the input member
is present unchanged in the output. -/
theorem mergeWithDecompressed_counterexample :
    mergeMembersCore [[("name", .pstr "x"), ("person_id", .pstr "A")]]
        [[("person_id", .pstr "B"), ("type", .pstr "t")]] =
      [[("name", .pstr "x"), ("person_id", .pstr "B"),
        ("detailed_type", .pstr "t")]] ∧
    dictGet ([[("name", PyData.pstr "x"), ("person_id", PyData.pstr "B"),
        ("detailed_type", PyData.pstr "t")]] : List Dict).headI "person_id" ≠
      some (.pstr "A") :=
  ⟨rfl, by simp [dictGet, List.find?]⟩

/-- C9 (amended): when the decompressed (state) list is shorter than the
scraped (DOM) list, members beyond its length DO receive default
sentinels: the merge sets both `person_id` and `detailed_type` to `None`
(the keys are present, not absent); on the scrape path, both when the
schema list is empty and when the name match fails with the entry's index
beyond a non-empty schema list, the member likewise receives empty
strings for both fields. -/
theorem mergeBeyondLength_sentinels :
    (∀ (scraped decompressed : List Dict) (i : Nat) (m : Dict),
      scraped.get? i = some m → decompressed.length ≤ i →
      ∃ m', (mergeMembersCore scraped decompressed).get? i = some m' ∧
        dictGet m' "person_id" = some .pnone ∧
        dictGet m' "detailed_type" = some .pnone) ∧
    (∀ (members : List Dict) (i : Nat) (m : Dict),
      members.get? i = some m →
      ∃ m', (matchAndEnrich members []).get? i = some m' ∧
        dictGet m' "person_id" = some (.pstr "") ∧
        dictGet m' "detailed_type" = some (.pstr "")) ∧
    (∀ (i : Nat) (m : Dict) (schema : List Dict),
      matchMemberWithSchema m schema = none → schema.length ≤ i →
      enrichOne i m schema = setEnrichment m (.pstr "") (.pstr "") ∧
      dictGet (enrichOne i m schema) "person_id" = some (.pstr "") ∧
      dictGet (enrichOne i m schema) "detailed_type" = some (.pstr "")) := by
  refine ⟨?_, ?_, ?_⟩
  · intro scraped decompressed i m hget hlen
    refine ⟨_, mergeMembersCore_get? scraped decompressed i m hget, ?_⟩
    rw [List.get?_eq_none.mpr hlen]
    simp only [setEnrichment]
    constructor
    · rw [dictGet_dictSet_ne (dictSet m "person_id" PyData.pnone) "person_id"
        "detailed_type" PyData.pnone (by decide)]
      exact dictGet_dictSet_self m "person_id" .pnone
    · exact dictGet_dictSet_self _ "detailed_type" PyData.pnone
  · intro members i m hget
    refine ⟨setEnrichment m (.pstr "") (.pstr ""), ?_, ?_, ?_⟩
    · simp only [matchAndEnrich, List.get?_map, hget, Option.map_some']
    · simp only [setEnrichment]
      rw [dictGet_dictSet_ne (dictSet m "person_id" (PyData.pstr "")) "person_id"
        "detailed_type" (PyData.pstr "") (by decide)]
      exact dictGet_dictSet_self m "person_id" (.pstr "")
    · exact dictGet_dictSet_self _ "detailed_type" (PyData.pstr "")
  · intro i m schema hmatch hlen
    have he : enrichOne i m schema = setEnrichment m (.pstr "") (.pstr "") := by
      simp only [enrichOne, hmatch]
      rw [dif_neg (by omega)]
    refine ⟨he, ?_, ?_⟩
    · rw [he]
      simp only [setEnrichment]
      rw [dictGet_dictSet_ne (dictSet m "person_id" (PyData.pstr "")) "person_id"
        "detailed_type" (PyData.pstr "") (by decide)]
      exact dictGet_dictSet_self m "person_id" (.pstr "")
    · rw [he]
      exact dictGet_dictSet_self _ "detailed_type" (PyData.pstr "")

/-- C9 (witness): a two-member scraped list merged against a one-entry
decompressed list. -/
theorem mergeBeyondLength_sentinels_witness :
    ∃ m', (mergeMembersCore [[("name", .pstr "x")], [("name", .pstr "y")]]
        [[("person_id", .pstr "1"), ("type", .pstr "t")]]).get? 1 = some m' ∧
      dictGet m' "person_id" = some .pnone ∧
      dictGet m' "detailed_type" = some .pnone :=
  mergeBeyondLength_sentinels.1 [[("name", .pstr "x")], [("name", .pstr "y")]]
    [[("person_id", .pstr "1"), ("type", .pstr "t")]] 1 [("name", .pstr "y")]
    rfl (by decide)

/-- C9 (counterexample): the member beyond the decompressed list's length
has `person_id` PRESENT and equal to `None` — a defaulted sentinel — not
absent as the claim states. -/
theorem mergeBeyondLength_counterexample :
    mergeMembersCore [[("name", .pstr "x")], [("name", .pstr "y")]]
        [[("person_id", .pstr "1"), ("type", .pstr "t")]] =
      [[("name", .pstr "x"), ("person_id", .pstr "1"), ("detailed_type", .pstr "t")],
       [("name", .pstr "y"), ("person_id", .pnone), ("detailed_type", .pnone)]] ∧
    dictGet ([("name", PyData.pstr "y"), ("person_id", PyData.pnone),
        ("detailed_type", PyData.pnone)] : Dict) "person_id" = some .pnone ∧
    dictGet ([("name", PyData.pstr "y"), ("person_id", PyData.pnone),
        ("detailed_type", PyData.pnone)] : Dict) "person_id" ≠ none :=
  ⟨rfl, rfl, by intro h; simp [dictGet, List.find?] at h⟩

/-- C6 (amended): the fallback structural search is indeed bounded at
depth 5 (any call above that depth returns nothing), but `_is_members_list`
accepts an array as a candidate record list as soon as AT LEAST ONE of its
first `min(3, len)` sampled elements is an object containing at least one
diagnostic field name from id/person_id/name/type/position/role — an
any-of-sample rule, not a majority-of-sample rule. -/
theorem recursiveSearch_depth_anySample :
    (∀ (data : PyData) (depth : Nat), 5 < depth →
      recursiveSearchMembers data depth = []) ∧
    (∀ xs : List PyData, isMembersList xs = true ↔
      ∃ x ∈ xs.take 3, ∃ fs, x = PyData.pdict fs ∧
        ∃ f ∈ personFields, (dictGet fs f).isSome = true) := by
  constructor
  · intro data depth h
    unfold recursiveSearchMembers
    rw [if_pos (by omega)]
  · intro xs
    cases xs with
    | nil => simp [isMembersList]
    | cons a l =>
        simp only [isMembersList, List.any_eq_true]
        constructor
        · rintro ⟨x, hx, hp⟩
          refine ⟨x, hx, ?_⟩
          cases x with
          | pdict fs =>
              refine ⟨fs, rfl, ?_⟩
              simpa [hasPersonField, List.any_eq_true] using hp
          | pstr s => simp [hasPersonField] at hp
          | pint n => simp [hasPersonField] at hp
          | pbool b => simp [hasPersonField] at hp
          | pnone => simp [hasPersonField] at hp
          | plist ys => simp [hasPersonField] at hp
        · rintro ⟨x, hx, fs, rfl, f, hf, hsome⟩
          refine ⟨.pdict fs, hx, ?_⟩
          simp only [hasPersonField, List.any_eq_true]
          exact ⟨f, hf, hsome⟩

/-- C6 (witness): the depth bound and the acceptance rule evaluated on
concrete data. -/
theorem recursiveSearch_depth_anySample_witness :
    recursiveSearchMembers (.pdict [("k", .plist [.pdict [("name", .pstr "x")]])]) 6 =
      [] ∧
    (isMembersList [.pdict [("name", .pstr "x")], .pdict [], .pdict []] = true ↔
      ∃ x ∈ ([PyData.pdict [("name", PyData.pstr "x")], PyData.pdict [],
          PyData.pdict []] : List PyData).take 3, ∃ fs, x = PyData.pdict fs ∧
        ∃ f ∈ personFields, (dictGet fs f).isSome = true) :=
  ⟨recursiveSearch_depth_anySample.1 _ 6 (by omega),
    recursiveSearch_depth_anySample.2 _⟩

/-- C6 (counterexample): a three-element array in which only ONE sampled
element (not a majority) carries a diagnostic field is accepted by
`_is_members_list`, and the recursive search extracts a record list from
it. -/
theorem recursiveSearch_counterexample :
    isMembersList [.pdict [("name", .pstr "x")], .pdict [], .pdict []] = true ∧
    ([PyData.pdict [("name", PyData.pstr "x")], PyData.pdict [],
        PyData.pdict []] : List PyData).countP hasPersonField = 1 ∧
    2 * ([PyData.pdict [("name", PyData.pstr "x")], PyData.pdict [],
        PyData.pdict []] : List PyData).countP hasPersonField <
      ([PyData.pdict [("name", PyData.pstr "x")], PyData.pdict [],
        PyData.pdict []] : List PyData).length ∧
    recursiveSearchMembers
        (.pdict [("k", .plist [.pdict [("name", .pstr "x")], .pdict [],
          .pdict []])]) 0 =
      [[("person_id", .pstr ""), ("detailed_type", .pstr ""),
        ("name", .pstr "x")],
       [("person_id", .pstr ""), ("detailed_type", .pstr ""),
        ("name", .pstr "")],
       [("person_id", .pstr ""), ("detailed_type", .pstr ""),
        ("name", .pstr "")]] ∧
    recursiveSearchMembers
        (.pdict [("k", .plist [.pdict [("name", .pstr "x")], .pdict [],
          .pdict []])]) 0 ≠ [] := by
  refine ⟨rfl, rfl, ?_, rfl, ?_⟩
  · rw [show ([PyData.pdict [("name", PyData.pstr "x")], PyData.pdict [],
        PyData.pdict []] : List PyData).countP hasPersonField = 1 from rfl]
    rw [show ([PyData.pdict [("name", PyData.pstr "x")], PyData.pdict [],
        PyData.pdict []] : List PyData).length = 3 from rfl]
    omega
  intro h
  have : ([] : List Dict).length =
      (recursiveSearchMembers
        (.pdict [("k", .plist [.pdict [("name", .pstr "x")], .pdict [],
          .pdict []])]) 0).length := by rw [h]
  simp at this
  rw [show recursiveSearchMembers
      (.pdict [("k", .plist [.pdict [("name", .pstr "x")], .pdict [],
        .pdict []])]) 0 =
      [[("person_id", .pstr ""), ("detailed_type", .pstr ""),
        ("name", .pstr "x")],
       [("person_id", .pstr ""), ("detailed_type", .pstr ""),
        ("name", .pstr "")],
       [("person_id", .pstr ""), ("detailed_type", .pstr ""),
        ("name", .pstr "")]] from rfl] at this
  simp at this

/-- C4 (amended): for closure sources carrying the `window.__NUXT__=`
prefix the resolver pairs parameter `i` with argument `i` positionally;
the comma splitter keeps commas inside quoted strings and inside
parentheses from splitting the argument list; the unescaping rewrites
`\"`, `\\` and the specific sequence `\u002F` (to `/`) only — a general
`\uXXXX` escape such as `\u0041` is left verbatim, not decoded. -/
theorem extractVariableMapping_positional :
    extractVariableMapping
        "window.__NUXT__=(function(a,b)\x7breturn\x7bx:a,y:b\x7d\x7d)(\"hello\",\"world\")" =
      [("a", "hello"), ("b", "world")] ∧
    extractVariableMapping
        "window.__NUXT__=(function(p,q,r,s)\x7b0\x7d)(\"x,y\",\"a\\\"b\",\"c\\\\d\",\"m\\u002Fn\")" =
      [("p", "x,y"), ("q", "a\"b"), ("r", "c\\d"), ("s", "m/n")] ∧
    parseCallArgs "f(1,2),g".toList = ["f(1,2)", "g"] ∧
    extractVariableMapping
        "window.__NUXT__=(function(a)\x7breturn a\x7d)(\"\\u0041\")" =
      [("a", "\\u0041")] :=
  ⟨rfl, rfl, rfl, rfl⟩

/-- C4 (counterexample): fed the claim's own closure source — which lacks
the `window.__NUXT__=` prefix the resolver requires — the resolver
returns the empty table, not `{a: "hello", b: "world"}`; and a `\u0041`
string argument keeps its escape verbatim instead of being unescaped
to `A`. -/
theorem extractVariableMapping_c4_counterexample :
    extractVariableMapping
        "(function(a,b)\x7breturn\x7bx:a,y:b\x7d\x7d)(\"hello\",\"world\")" = [] ∧
    extractVariableMapping
        "(function(a,b)\x7breturn\x7bx:a,y:b\x7d\x7d)(\"hello\",\"world\")" ≠
      [("a", "hello"), ("b", "world")] ∧
    extractVariableMapping
        "window.__NUXT__=(function(a)\x7breturn a\x7d)(\"\\u0041\")" ≠
      [("a", "A")] :=
  ⟨rfl, by decide, by decide⟩

/-- C5 (amended): when the `window.__NUXT__=(function(` marker is absent
the builder returns the empty table; but when the marker and parameter
list are found and only the trailing invocation argument list cannot be
located, the builder does NOT return an empty table — it fabricates a
heuristic table pairing the first parameters positionally with a fixed
list of common football terms. -/
theorem extractVariableMapping_truncated :
    (∀ js : String, findSubPos nuxtMarker js.toList = none →
      extractVariableMapping js = []) ∧
    findCallArgs
        ("window.__NUXT__=(function(a,b)\x7breturn\x7b\x7d\x7d" : String).toList =
      none ∧
    extractVariableMapping "window.__NUXT__=(function(a,b)\x7breturn\x7b\x7d\x7d" =
      [("a", "主教练"), ("b", "助理教练")] := by
  refine ⟨?_, rfl, rfl⟩
  intro js h
  simp only [extractVariableMapping, h]

/-- C5 (witness): a closure source without the marker yields the empty
table. -/
theorem extractVariableMapping_truncated_witness :
    extractVariableMapping "(function(a,b)\x7b1\x7d)(\"x\",\"y\")" = [] :=
  extractVariableMapping_truncated.1 "(function(a,b)\x7b1\x7d)(\"x\",\"y\")" rfl

/-- C5 (counterexample): a truncated closure whose invocation tail cannot
be located (no `})(` occurs) produces a fabricated two-entry alias table,
refuting the claim that an empty table is returned. -/
theorem extractVariableMapping_c5_counterexample :
    findCallArgs
        ("window.__NUXT__=(function(a,b)\x7breturn\x7b\x7d\x7d" : String).toList =
      none ∧
    extractVariableMapping "window.__NUXT__=(function(a,b)\x7breturn\x7b\x7d\x7d" =
      [("a", "主教练"), ("b", "助理教练")] ∧
    extractVariableMapping "window.__NUXT__=(function(a,b)\x7breturn\x7b\x7d\x7d" ≠
      [] :=
  ⟨rfl, rfl, by decide⟩

/-- C7 (amended): `parse_js_object_to_json` attempts a direct JSON parse
before any rewriting, so on clean JSON (with no `\uXXXX` sequences for
the escape pre-pass to touch) it returns exactly the directly-parsed
record; for `_parse_js_object`, whose rewriting steps run
unconditionally, the normalized result equals the direct parse whenever
the combined rewriting happens to leave the text unchanged — but the
steps are NOT all identity on clean JSON (see the counterexample). -/
theorem parseJsObject_cleanJson :
    (∀ (s : String) (v : Json), convertUnicodeEscapes s = s →
      jsonLoads s = some v → parseJsObjectToJson s = some v) ∧
    (∀ (s : String) (v : Json), parseJsObjectRewrite s = s →
      jsonLoads s = some v → parseJsObjectJsonPath s = some v) := by
  constructor
  · intro s v h1 h2
    simp only [parseJsObjectToJson, h1, h2]
  · intro s v h1 h2
    simp only [parseJsObjectJsonPath, h1, h2]

/-- C7 (witness): the clean JSON text `{"a":1}` round-trips through both
normalizers. -/
theorem parseJsObject_cleanJson_witness :
    parseJsObjectToJson "\x7b\"a\":1\x7d" = some (.jobj [("a", .jnum 1)]) ∧
    parseJsObjectJsonPath "\x7b\"a\":1\x7d" = some (.jobj [("a", .jnum 1)]) :=
  ⟨parseJsObject_cleanJson.1 "\x7b\"a\":1\x7d" (.jobj [("a", .jnum 1)]) rfl rfl,
    parseJsObject_cleanJson.2 "\x7b\"a\":1\x7d" (.jobj [("a", .jnum 1)]) rfl rfl⟩

/-- C7 (counterexample): on the valid JSON text `{"a":"undefined"}` the
`undefined`→`null` rewriting step of `_parse_js_object` changes the text
(it rewrites inside the quoted string value), and the normalized parse
yields the record `{"a": "null"}` instead of the directly-parsed
`{"a": "undefined"}` — so the steps are not idempotent on clean JSON and
normalizing does not equal direct parsing. -/
theorem parseJsObject_counterexample :
    subWordBound "undefined" "null" "\x7b\"a\":\"undefined\"\x7d" =
      "\x7b\"a\":\"null\"\x7d" ∧
    subWordBound "undefined" "null" "\x7b\"a\":\"undefined\"\x7d" ≠
      "\x7b\"a\":\"undefined\"\x7d" ∧
    jsonLoads "\x7b\"a\":\"undefined\"\x7d" =
      some (.jobj [("a", .jstr "undefined")]) ∧
    parseJsObjectJsonPath "\x7b\"a\":\"undefined\"\x7d" =
      some (.jobj [("a", .jstr "null")]) ∧
    parseJsObjectToJson "\x7b\"a\":\"undefined\"\x7d" =
      some (.jobj [("a", .jstr "undefined")]) :=
  ⟨rfl, by decide, rfl, rfl, rfl⟩

mutual

theorem pyEqb_refl : (a : PyData) → pyEqb a a = true
  | .pstr s => by simp [pyEqb]
  | .pint n => by simp [pyEqb]
  | .pbool b => by simp [pyEqb]
  | .pnone => by simp [pyEqb]
  | .plist xs => by
      simp only [pyEqb]
      exact pyEqbList_refl xs
  | .pdict fs => by
      simp only [pyEqb]
      exact pyEqbDict_refl fs

theorem pyEqbList_refl : (xs : List PyData) → pyEqbList xs xs = true
  | [] => by simp [pyEqbList]
  | x :: rest => by
      simp only [pyEqbList, Bool.and_eq_true]
      exact ⟨pyEqb_refl x, pyEqbList_refl rest⟩

theorem pyEqbDict_refl : (fs : List (String × PyData)) → pyEqbDict fs fs = true
  | [] => by simp [pyEqbDict]
  | (k, v) :: rest => by
      simp only [pyEqbDict, Bool.and_eq_true]
      exact ⟨⟨by simp, pyEqb_refl v⟩, pyEqbDict_refl rest⟩

end

theorem dictGet_mem {α : Type} {d : List (String × α)} {k : String} {v : α}
    (h : dictGet d k = some v) : (k, v) ∈ d := by
  obtain ⟨q, hq, hv⟩ := Option.map_eq_some'.mp h
  have hk : q.1 = k := by
    have := List.find?_some hq
    simpa using this
  have hmem := List.mem_of_find?_eq_some hq
  have : q = (k, v) := by
    obtain ⟨q1, q2⟩ := q
    simp only at hk hv
    rw [hk, hv]
  rwa [this] at hmem

theorem mem_dictSet_of_ne {α : Type} {d : List (String × α)} {k : String} {v : α}
    (k' : String) (v' : α) (hne : k ≠ k') (hm : (k, v) ∈ d) :
    (k, v) ∈ dictSet d k' v' := by
  induction d with
  | nil => simp at hm
  | cons p rest ih =>
      obtain ⟨k0, v0⟩ := p
      by_cases h0 : k0 = k'
      · subst h0
        simp only [dictSet, if_pos rfl]
        rcases List.mem_cons.mp hm with heq | hmem
        · exact absurd (congrArg Prod.fst heq) hne
        · exact List.mem_cons_of_mem _ hmem
      · simp only [dictSet, if_neg h0]
        rcases List.mem_cons.mp hm with heq | hmem
        · exact heq ▸ List.mem_cons_self _ _
        · exact List.mem_cons_of_mem _ (ih hmem)

theorem dictKeys_dictSet_nodup {α : Type} {d : List (String × α)} {k : String}
    {v : α} (h : (dictKeys d).Nodup) : (dictKeys (dictSet d k v)).Nodup := by
  by_cases hm : k ∈ dictKeys d
  · rw [dictKeys_dictSet_mem d k v hm]
    exact h
  · rw [dictKeys_dictSet_not_mem d k v hm]
    simp [List.nodup_append, h, hm]

theorem applySet_get_notin {upd : Dict} (d : Dict) (k : String)
    (h : ¬ k ∈ dictKeys upd) : dictGet (applySet d upd) k = dictGet d k := by
  induction upd generalizing d with
  | nil => rfl
  | cons p rest ih =>
      obtain ⟨k0, v0⟩ := p
      have hcons : dictKeys ((k0, v0) :: rest) = k0 :: dictKeys rest := rfl
      rw [hcons] at h
      have hk0 : k ≠ k0 := by
        intro hh
        exact h (hh ▸ List.mem_cons_self k0 (dictKeys rest))
      have hrest : ¬ k ∈ dictKeys rest := fun hh => h (List.mem_cons_of_mem _ hh)
      show dictGet (applySet (dictSet d k0 v0) rest) k = dictGet d k
      rw [ih (dictSet d k0 v0) hrest]
      exact dictGet_dictSet_ne d k k0 v0 hk0

theorem applySet_get_mem {upd : Dict} (d : Dict) (k : String) (v : PyData)
    (hnd : (dictKeys upd).Nodup) (hmem : (k, v) ∈ upd) :
    dictGet (applySet d upd) k = some v := by
  induction upd generalizing d with
  | nil => simp at hmem
  | cons p rest ih =>
      obtain ⟨k0, v0⟩ := p
      have hnd' : (dictKeys rest).Nodup := (List.nodup_cons.mp hnd).2
      rcases List.mem_cons.mp hmem with heq | hmem'
      · obtain ⟨hk, hv⟩ : k = k0 ∧ v = v0 := by
          injection heq with h1 h2
          exact ⟨h1, h2⟩
        subst hk
        subst hv
        have hnotin : ¬ k ∈ dictKeys rest := by
          have := (List.nodup_cons.mp hnd).1
          simpa [dictKeys] using this
        show dictGet (applySet (dictSet d k v) rest) k = some v
        rw [applySet_get_notin (dictSet d k v) k hnotin]
        exact dictGet_dictSet_self d k v
      · show dictGet (applySet (dictSet d k0 v0) rest) k = some v
        exact ih (dictSet d k0 v0) hnd' hmem'

theorem updateFirst_append_of_not (s : Store) (p : Dict → Bool) (f : Dict → Dict)
    (x : Dict) (h : ∀ d ∈ s, p d = false) (hx : p x = true) :
    updateFirst (s ++ [x]) p f = s ++ [f x] := by
  induction s with
  | nil => simp [updateFirst, hx]
  | cons d rest ih =>
      have hd : p d = false := h d (List.mem_cons_self _ _)
      simp only [List.cons_append, updateFirst, hd, Bool.false_eq_true, if_false]
      show d :: updateFirst (rest ++ [x]) p f = d :: (rest ++ [f x])
      rw [ih (fun d' hd' => h d' (List.mem_cons_of_mem _ hd'))]

/-- C8 (as stated): persisting two team documents with the same
`(team_name, team_id)` natural key — the second over a store already
containing the first — leaves exactly ONE stored document matching that
key, the store grows by exactly one document overall, and the matching
document carries the second write's value for every one of its fields:
`insert_team` detects the existing key and performs an update
(`$set` of all fields) instead of inserting a duplicate. -/
theorem insertTeam_upsert :
    ∀ (s : Store) (d1 d2 : Dict) (n i now1 now2 : PyData),
      requiredFieldsOk d1 = true → requiredFieldsOk d2 = true →
      dictGet d1 "team_name" = some n → dictGet d1 "team_id" = some i →
      dictGet d2 "team_name" = some n → dictGet d2 "team_id" = some i →
      (∀ d ∈ s, matchesKey d n i = false) →
      (dictKeys d2).Nodup → ¬ "updated_at" ∈ dictKeys d2 →
      ∃ doc,
        (insertTeam (insertTeam s d1 now1) d2 now2).filter
            (fun d => matchesKey d n i) = [doc] ∧
        (∀ k v, (k, v) ∈ d2 → dictGet doc k = some v) ∧
        (insertTeam (insertTeam s d1 now1) d2 now2).length = s.length + 1 := by
  intro s d1 d2 n i now1 now2 hr1 hr2 h1n h1i h2n h2i hs hnd hnupd
  have hgn1 : dictGetD d1 "team_name" PyData.pnone = n := by simp [dictGetD, h1n]
  have hgi1 : dictGetD d1 "team_id" PyData.pnone = i := by simp [dictGetD, h1i]
  have hgn2 : dictGetD d2 "team_name" PyData.pnone = n := by simp [dictGetD, h2n]
  have hgi2 : dictGetD d2 "team_id" PyData.pnone = i := by simp [dictGetD, h2i]
  have hfindnil : List.find? (fun d => matchesKey d n i) s = none :=
    List.find?_eq_none.mpr (fun d hd => by simp [hs d hd])
  have hfind1 : findTeamByNameAndId s n i = none := hfindnil
  have e1 : insertTeam s d1 now1 =
      s ++ [dictSet (dictSet d1 "created_at" now1) "updated_at" now1] := by
    simp only [insertTeam, hr1, hgn1, hgi1, hfind1, if_true]
  have hxn : dictGet (dictSet (dictSet d1 "created_at" now1) "updated_at" now1)
      "team_name" = some n := by
    rw [dictGet_dictSet_ne _ _ _ _ (by decide), dictGet_dictSet_ne _ _ _ _ (by decide)]
    exact h1n
  have hxi : dictGet (dictSet (dictSet d1 "created_at" now1) "updated_at" now1)
      "team_id" = some i := by
    rw [dictGet_dictSet_ne _ _ _ _ (by decide), dictGet_dictSet_ne _ _ _ _ (by decide)]
    exact h1i
  have hxmatch : matchesKey (dictSet (dictSet d1 "created_at" now1)
      "updated_at" now1) n i = true := by
    unfold matchesKey
    rw [hxn, hxi]
    simp [pyEqb_refl]
  have hfind2 : findTeamByNameAndId
      (s ++ [dictSet (dictSet d1 "created_at" now1) "updated_at" now1]) n i =
      some (dictSet (dictSet d1 "created_at" now1) "updated_at" now1) := by
    unfold findTeamByNameAndId
    rw [List.find?_append, hfindnil]
    simp [List.find?, hxmatch]
  have e2 : insertTeam
      (s ++ [dictSet (dictSet d1 "created_at" now1) "updated_at" now1]) d2 now2 =
      s ++ [applySet (dictSet (dictSet d1 "created_at" now1) "updated_at" now1)
        (dictSet d2 "updated_at" now2)] := by
    simp only [insertTeam, hr2, hgn2, hgi2, hfind2, if_true]
    unfold updateTeamByNameAndId
    exact updateFirst_append_of_not s _ _ _ hs hxmatch
  have hndupd : (dictKeys (dictSet d2 "updated_at" now2)).Nodup :=
    dictKeys_dictSet_nodup hnd
  have hmemn : ("team_name", n) ∈ dictSet d2 "updated_at" now2 :=
    mem_dictSet_of_ne "updated_at" now2 (by decide) (dictGet_mem h2n)
  have hmemi : ("team_id", i) ∈ dictSet d2 "updated_at" now2 :=
    mem_dictSet_of_ne "updated_at" now2 (by decide) (dictGet_mem h2i)
  have hdocn : dictGet (applySet (dictSet (dictSet d1 "created_at" now1)
      "updated_at" now1) (dictSet d2 "updated_at" now2)) "team_name" = some n :=
    applySet_get_mem _ "team_name" n hndupd hmemn
  have hdoci : dictGet (applySet (dictSet (dictSet d1 "created_at" now1)
      "updated_at" now1) (dictSet d2 "updated_at" now2)) "team_id" = some i :=
    applySet_get_mem _ "team_id" i hndupd hmemi
  have hdocmatch : matchesKey (applySet (dictSet (dictSet d1 "created_at" now1)
      "updated_at" now1) (dictSet d2 "updated_at" now2)) n i = true := by
    unfold matchesKey
    rw [hdocn, hdoci]
    simp [pyEqb_refl]
  refine ⟨applySet (dictSet (dictSet d1 "created_at" now1) "updated_at" now1)
    (dictSet d2 "updated_at" now2), ?_, ?_, ?_⟩
  · rw [e1, e2, List.filter_append,
      List.filter_eq_nil.mpr (fun d hd => by simp [hs d hd])]
    simp [List.filter, hdocmatch]
  · intro k v hkv
    have hkne : k ≠ "updated_at" := by
      intro hh
      exact hnupd (hh ▸ List.mem_map_of_mem Prod.fst hkv)
    exact applySet_get_mem _ k v hndupd (mem_dictSet_of_ne "updated_at" now2 hkne hkv)
  · rw [e1, e2]
    simp

/-- C8 (witness): two writes of the same `("AC", "1")` key into an empty
store leave one matching document holding the second write's values. -/
theorem insertTeam_upsert_witness :
    ∃ doc,
      (insertTeam (insertTeam []
          [("team_id", PyData.pstr "1"), ("team_name", PyData.pstr "AC"),
           ("team_logo", PyData.pstr "l"), ("scheme", PyData.pstr "s"),
           ("x", PyData.pstr "old")] (PyData.pstr "t1"))
          [("team_id", PyData.pstr "1"), ("team_name", PyData.pstr "AC"),
           ("team_logo", PyData.pstr "l2"), ("scheme", PyData.pstr "s"),
           ("x", PyData.pstr "new")] (PyData.pstr "t2")).filter
          (fun d => matchesKey d (PyData.pstr "AC") (PyData.pstr "1")) = [doc] ∧
      (∀ k v, (k, v) ∈ ([("team_id", PyData.pstr "1"),
          ("team_name", PyData.pstr "AC"), ("team_logo", PyData.pstr "l2"),
          ("scheme", PyData.pstr "s"), ("x", PyData.pstr "new")] : Dict) →
        dictGet doc k = some v) ∧
      (insertTeam (insertTeam []
          [("team_id", PyData.pstr "1"), ("team_name", PyData.pstr "AC"),
           ("team_logo", PyData.pstr "l"), ("scheme", PyData.pstr "s"),
           ("x", PyData.pstr "old")] (PyData.pstr "t1"))
          [("team_id", PyData.pstr "1"), ("team_name", PyData.pstr "AC"),
           ("team_logo", PyData.pstr "l2"), ("scheme", PyData.pstr "s"),
           ("x", PyData.pstr "new")] (PyData.pstr "t2")).length =
        List.length ([] : Store) + 1 :=
  insertTeam_upsert []
    [("team_id", PyData.pstr "1"), ("team_name", PyData.pstr "AC"),
     ("team_logo", PyData.pstr "l"), ("scheme", PyData.pstr "s"),
     ("x", PyData.pstr "old")]
    [("team_id", PyData.pstr "1"), ("team_name", PyData.pstr "AC"),
     ("team_logo", PyData.pstr "l2"), ("scheme", PyData.pstr "s"),
     ("x", PyData.pstr "new")]
    (PyData.pstr "AC") (PyData.pstr "1") (PyData.pstr "t1") (PyData.pstr "t2")
    rfl rfl rfl rfl rfl rfl (by simp) (by decide) (by decide)
